import Mathlib

set_option maxRecDepth 100000

/-!
Verification of the Scripture Reference Resolution & AI Query Gateway core
of the AI Bible Companion application.

The development shallowly embeds the two service modules
(`services/geminiService` and `services/bibleService`) and the reference
parser from `App.tsx`.  Network I/O is modelled by an oracle
`net : Nat -> NetResult` consumed at an explicit call counter `k`; the
process-wide mutable globals of the service module (the rate-limit
cooldown timestamp, the analysis cache, the per-tier chat-session map and
the lazily created client handle) become an explicit `AIState` record
threaded through each operation.
-/

namespace BibleApp

/-! ## Character classes and string helpers

JS-style predicates used by the source's regular expressions
(`\s`, `\d`, `[a-zA-Z]`), `trim`, `toLowerCase` and `replace(/\s/g, '')`.
`isWsCh` covers the common whitespace characters.
-/

def isWsCh (c : Char) : Bool := c = ' ' || c = '\t' || c = '\n' || c = '\r'

def isDigitCh (c : Char) : Bool := '0' ≤ c && c ≤ '9'

def isLetterCh (c : Char) : Bool := ('a' ≤ c && c ≤ 'z') || ('A' ≤ c && c ≤ 'Z')

/-- Character class `[a-zA-Z\s]` of the reference regex's book token. -/
def isBookCh (c : Char) : Bool := isLetterCh c || isWsCh c

def toLowerCh (c : Char) : Char :=
  if 'A' ≤ c && c ≤ 'Z' then Char.ofNat (c.toNat + 32) else c

def lowerL (cs : List Char) : List Char := cs.map toLowerCh

/-- JS `String.prototype.trim`: drop whitespace from both ends. -/
def trimL (cs : List Char) : List Char :=
  ((cs.dropWhile isWsCh).reverse.dropWhile isWsCh).reverse

/-- JS `replace(/\s/g, '')`: remove every whitespace character. -/
def removeWsL (cs : List Char) : List Char := cs.filter (fun c => !isWsCh c)

def lowerS (s : String) : String := ⟨lowerL s.data⟩

def trimS (s : String) : String := ⟨trimL s.data⟩

def removeWsS (s : String) : String := ⟨removeWsL s.data⟩

/-- JS `String.prototype.includes`: substring containment test. -/
def strContains (s pat : String) : Bool := (s.splitOn pat).length != 1

/-! ## AI gateway (`services/geminiService`)

The module-level globals (`ai`, `chatInstances`, `verseCache`,
`globalCooldownUntil`) are gathered in `AIState`.  A chat session is a
record of the arguments `ai.chats.create` was called with, plus a ghost
`id` that models the JS object identity of the created `Chat` instance.
-/

/-- A persistent chat session, as created by `getChat`.  `id` is a ghost
field modelling object identity (sessions created later get larger ids). -/
structure ChatSession where
  id : Nat
  model : String
  systemInstruction : String
deriving DecidableEq, Repr

structure AIState where
  /-- whether the lazily created `GoogleGenAI` client handle exists -/
  ai : Bool
  /-- `globalCooldownUntil`, a millisecond timestamp -/
  cooldownUntil : Nat
  /-- `verseCache : Map<string, string>` -/
  verseCache : List (String × String)
  /-- `chatInstances : Map<ChatMode, Chat>`; tier (mode) strings as keys -/
  chatInstances : List (String × ChatSession)
  /-- ghost counter supplying fresh session ids -/
  nextChatId : Nat
deriving DecidableEq, Repr

/-- Outcome of one remote request, as observed by the caller:
generated text, or a thrown error's message string. -/
inductive NetResult where
  | ok (text : String)
  | err (msg : String)
deriving DecidableEq, Repr

/-- JS `Map.get` / object-key lookup on the association-list model. -/
def mapGet (m : List (String × String)) (key : String) : Option String :=
  (m.find? (fun p => p.1 == key)).map (fun p => p.2)

/-- JS `Map.set` / object-key assignment: overwrite an existing binding,
else append (insertion order preserved). -/
def mapSet (m : List (String × String)) (key v : String) : List (String × String) :=
  if m.any (fun p => p.1 == key) then
    m.map (fun p => if p.1 == key then (key, v) else p)
  else m ++ [(key, v)]

/-- `getAiInstance`: create the client handle on first use; a missing
credential is a fatal `ApiKeyError` ("API key missing."). -/
def getAiInstance (apiKey : Bool) (st : AIState) : Except String AIState :=
  if !st.ai then
    if !apiKey then .error "API key missing."
    else .ok { st with ai := true }
  else .ok st

deriving instance DecidableEq for Except

/-- Result of a gateway operation that can throw: the value or the thrown
message, the updated gateway state, and the network-call counter after the
operation (`k` unchanged means no network call was made). -/
structure GenResult where
  result : Except String String
  state : AIState
  k : Nat
deriving DecidableEq, Repr

/-- The rate-limit signal test of `safeGenerate`'s catch block:
`err.message` contains `"429"` or `"RESOURCE_EXHAUSTED"`. -/
def isRateLimitMsg (m : String) : Bool :=
  strContains m "429" || strContains m "RESOURCE_EXHAUSTED"

def cooldownSecs (cooldownUntil now : Nat) : Nat :=
  (cooldownUntil - now + 999) / 1000

def cooldownErrorMsg (cooldownUntil now : Nat) : String :=
  "AI cooling down. Try again in " ++ toString (cooldownSecs cooldownUntil now) ++ "s."

def busyMsg : String := "AI is busy. Please wait 60 seconds and try again."

/-- `safeGenerate(model, prompt)`: fail fast while the cooldown is active
(no network call); otherwise perform one `generateContent` call, turning a
rate-limit failure into a 60-second cooldown.  `now` is `Date.now()` in
milliseconds; `net k` is the outcome of the `k`-th network call of the
process. -/
def safeGenerate (model prompt : String) (apiKey : Bool) (now : Nat)
    (net : Nat → NetResult) (st : AIState) (k : Nat) : GenResult :=
  if now < st.cooldownUntil then
    { result := .error (cooldownErrorMsg st.cooldownUntil now), state := st, k := k }
  else
    match getAiInstance apiKey st with
    | .error e => { result := .error e, state := st, k := k }
    | .ok st1 =>
      match net k with
      | .ok t => { result := .ok t, state := st1, k := k + 1 }
      | .err m =>
        if isRateLimitMsg m then
          { result := .error busyMsg,
            state := { st1 with cooldownUntil := now + 60000 }, k := k + 1 }
        else { result := .error m, state := st1, k := k + 1 }

/-- Chat message record (fields as constructed in the `Chatbot`
component: `{ id, text, sender }`).  `sendMessageToBot` receives but never
reads the history list. -/
structure Message where
  id : String
  text : String
  sender : String
deriving DecidableEq, Repr

def expertSystemInstruction : String :=
  "You are an expert Bible scholar. Be precise, deep, and context-rich."

/-- `getChat(mode)`: reuse the session stored for `mode`, else create one
with `model := mode`, the fixed Bible-scholar system instruction and no
further configuration, and store it. -/
def getChat (mode : String) (apiKey : Bool) (st : AIState) :
    Except String (ChatSession × AIState) :=
  match st.chatInstances.find? (fun p => p.1 == mode) with
  | some p => .ok (p.2, st)
  | none =>
    match getAiInstance apiKey st with
    | .error e => .error e
    | .ok st1 =>
      let newChat : ChatSession :=
        { id := st1.nextChatId, model := mode,
          systemInstruction := expertSystemInstruction }
      .ok (newChat,
        { st1 with
          chatInstances := st1.chatInstances ++ [(mode, newChat)],
          nextChatId := st1.nextChatId + 1 })

/-- Result of `sendMessageToBot`: the returned `text` (the function never
throws; a caught error's message becomes the text), the state, the call
counter, and a ghost observation of which session (if any) the message
was sent through. -/
structure BotResult where
  text : String
  state : AIState
  k : Nat
  usedChat : Option ChatSession
deriving DecidableEq, Repr

/-- `sendMessageToBot(message, history, mode)`: the `"gemini-2.5-flash"`
tier is answered by a one-shot `safeGenerate`; every other tier sends the
message through its persistent chat session (`chat.sendMessage`, one
network call, no cooldown consultation).  Errors are caught and returned
as the text (`err.message || "AI error"`). -/
def sendMessageToBot (message : String) (history : List Message) (mode : String)
    (apiKey : Bool) (now : Nat) (net : Nat → NetResult) (st : AIState) (k : Nat) :
    BotResult :=
  if mode == "gemini-2.5-flash" then
    match safeGenerate "gemini-2.5-flash" message apiKey now net st k with
    | ⟨.ok t, st1, k1⟩ => { text := t, state := st1, k := k1, usedChat := none }
    | ⟨.error m, st1, k1⟩ =>
      { text := if m == "" then "AI error" else m,
        state := st1, k := k1, usedChat := none }
  else
    match getChat mode apiKey st with
    | .error m =>
      { text := if m == "" then "AI error" else m,
        state := st, k := k, usedChat := none }
    | .ok (chat, st1) =>
      match net k with
      | .ok t => { text := t, state := st1, k := k + 1, usedChat := some chat }
      | .err m =>
        { text := if m == "" then "AI error" else m,
          state := st1, k := k + 1, usedChat := some chat }

/-- Verse reference record (`types.ts` field shape, as used throughout
the sources). -/
structure VerseReference where
  book : String
  chapter : Nat
  verse : Nat
deriving DecidableEq, Repr

/-- The three analysis kinds accepted by `getVerseAnalysis`. -/
inductive AnalysisType where
  | crossReferences
  | historicalContext
  | interlinear
deriving DecidableEq, Repr

def AnalysisType.str : AnalysisType → String
  | .crossReferences => "Cross-references"
  | .historicalContext => "Historical Context"
  | .interlinear => "Interlinear"

def refDisplay (r : VerseReference) : String :=
  r.book ++ " " ++ toString r.chapter ++ ":" ++ toString r.verse

/-- The fixed prompt template for each analysis kind. -/
def analysisPrompt (r : VerseReference) : AnalysisType → String
  | .crossReferences =>
    "Provide key cross-references for " ++ refDisplay r ++ ". Group by theme."
  | .historicalContext =>
    "Explain the historical and cultural context of " ++ refDisplay r ++ "."
  | .interlinear =>
    "Provide a detailed interlinear breakdown for " ++ refDisplay r ++
      ".\n      \nOriginal Text (Greek/Hebrew):\nInclude full verse text in original language.\n\nEnglish Transliteration:\nClear transliteration.\n\nWord-by-Word Analysis:\nList each key word with transliteration and a simple definition."

/-- The cache key of the analysis cache:
`` `${book}-${chapter}-${verse}-${analysisType}` ``. -/
def analysisCacheKey (r : VerseReference) (a : AnalysisType) : String :=
  r.book ++ "-" ++ toString r.chapter ++ "-" ++ toString r.verse ++ "-" ++ a.str

/-- `getVerseAnalysis(verseRef, analysisType)`: serve from the cache when
the key is present (before any cooldown consideration); otherwise run
`safeGenerate` on the fixed prompt and cache a successful result.
Failures propagate and are not cached. -/
def getVerseAnalysis (verseRef : VerseReference) (analysisType : AnalysisType)
    (apiKey : Bool) (now : Nat) (net : Nat → NetResult) (st : AIState) (k : Nat) :
    GenResult :=
  match mapGet st.verseCache (analysisCacheKey verseRef analysisType) with
  | some t => { result := .ok t, state := st, k := k }
  | none =>
    match safeGenerate "gemini-2.5-flash-lite" (analysisPrompt verseRef analysisType)
        apiKey now net st k with
    | ⟨.ok t, st1, k1⟩ =>
      { result := .ok t,
        state := { st1 with
          verseCache := mapSet st1.verseCache (analysisCacheKey verseRef analysisType) t },
        k := k1 }
    | ⟨.error m, st1, k1⟩ => { result := .error m, state := st1, k := k1 }

/-- Result of `searchBibleByKeyword` (never throws: failures become `""`). -/
structure SearchOut where
  text : String
  state : AIState
  k : Nat
deriving DecidableEq, Repr

/-- `searchBibleByKeyword(keyword)`: one-shot completion; any failure is
logged and surfaced as the empty string. -/
def keywordSearchPrompt (keyword : String) : String :=
  "Search the Bible for verses related to \"" ++ keyword ++
    "\". \nReturn ONLY a list like: John 3:16, Romans 8:28."

def searchBibleByKeyword (keyword : String) (apiKey : Bool) (now : Nat)
    (net : Nat → NetResult) (st : AIState) (k : Nat) : SearchOut :=
  match safeGenerate "gemini-2.5-flash-lite" (keywordSearchPrompt keyword)
      apiKey now net st k with
  | ⟨.ok t, st1, k1⟩ => { text := t, state := st1, k := k1 }
  | ⟨.error _, st1, k1⟩ => { text := "", state := st1, k := k1 }

/-! ## Scripture service (`services/bibleService`) -/

/-- Entry of the `BIBLE_META` table (`{ name, chapters }`). -/
structure BookMeta where
  name : String
  chapters : Nat
deriving DecidableEq, Repr

/-- Modelled from the spec: the static table
`data/bibleMetaWithVerseCounts.ts` is not part of the available sources.
Per the spec, it lists the canonical books in canonical order
(Genesis…Revelation); the names and their order coincide with the keys of
the `bookNameToAbbreviation` table in `services/bibleService`, and the
chapter counts are the standard canonical chapter counts.  `BIBLE_META`
in the source is this table mapped to `{ name, chapters }`. -/
def BIBLE_META : List BookMeta :=
  [⟨"Genesis", 50⟩, ⟨"Exodus", 40⟩, ⟨"Leviticus", 27⟩, ⟨"Numbers", 36⟩,
   ⟨"Deuteronomy", 34⟩, ⟨"Joshua", 24⟩, ⟨"Judges", 21⟩, ⟨"Ruth", 4⟩,
   ⟨"1 Samuel", 31⟩, ⟨"2 Samuel", 24⟩, ⟨"1 Kings", 22⟩, ⟨"2 Kings", 25⟩,
   ⟨"1 Chronicles", 29⟩, ⟨"2 Chronicles", 36⟩, ⟨"Ezra", 10⟩, ⟨"Nehemiah", 13⟩,
   ⟨"Esther", 10⟩, ⟨"Job", 42⟩, ⟨"Psalms", 150⟩, ⟨"Proverbs", 31⟩,
   ⟨"Ecclesiastes", 12⟩, ⟨"Song of Solomon", 8⟩, ⟨"Isaiah", 66⟩, ⟨"Jeremiah", 52⟩,
   ⟨"Lamentations", 5⟩, ⟨"Ezekiel", 48⟩, ⟨"Daniel", 12⟩, ⟨"Hosea", 14⟩,
   ⟨"Joel", 3⟩, ⟨"Amos", 9⟩, ⟨"Obadiah", 1⟩, ⟨"Jonah", 4⟩,
   ⟨"Micah", 7⟩, ⟨"Nahum", 3⟩, ⟨"Habakkuk", 3⟩, ⟨"Zephaniah", 3⟩,
   ⟨"Haggai", 2⟩, ⟨"Zechariah", 14⟩, ⟨"Malachi", 4⟩, ⟨"Matthew", 28⟩,
   ⟨"Mark", 16⟩, ⟨"Luke", 24⟩, ⟨"John", 21⟩, ⟨"Acts", 28⟩,
   ⟨"Romans", 16⟩, ⟨"1 Corinthians", 16⟩, ⟨"2 Corinthians", 13⟩, ⟨"Galatians", 6⟩,
   ⟨"Ephesians", 6⟩, ⟨"Philippians", 4⟩, ⟨"Colossians", 4⟩, ⟨"1 Thessalonians", 5⟩,
   ⟨"2 Thessalonians", 3⟩, ⟨"1 Timothy", 6⟩, ⟨"2 Timothy", 4⟩, ⟨"Titus", 3⟩,
   ⟨"Philemon", 1⟩, ⟨"Hebrews", 13⟩, ⟨"James", 5⟩, ⟨"1 Peter", 5⟩,
   ⟨"2 Peter", 3⟩, ⟨"1 John", 5⟩, ⟨"2 John", 1⟩, ⟨"3 John", 1⟩,
   ⟨"Jude", 1⟩, ⟨"Revelation", 22⟩]

/-- The static `bookNameToAbbreviation` table of `services/bibleService`. -/
def bookNameToAbbreviation : List (String × String) :=
  [("Genesis", "Gen"), ("Exodus", "Exod"), ("Leviticus", "Lev"), ("Numbers", "Num"),
   ("Deuteronomy", "Deut"), ("Joshua", "Josh"), ("Judges", "Judg"), ("Ruth", "Ruth"),
   ("1 Samuel", "1 Sam"), ("2 Samuel", "2 Sam"), ("1 Kings", "1 Kgs"), ("2 Kings", "2 Kgs"),
   ("1 Chronicles", "1 Chr"), ("2 Chronicles", "2 Chr"), ("Ezra", "Ezra"), ("Nehemiah", "Neh"),
   ("Esther", "Esth"), ("Job", "Job"), ("Psalms", "Ps"), ("Proverbs", "Prov"),
   ("Ecclesiastes", "Eccl"), ("Song of Solomon", "Song"), ("Isaiah", "Isa"), ("Jeremiah", "Jer"),
   ("Lamentations", "Lam"), ("Ezekiel", "Ezek"), ("Daniel", "Dan"), ("Hosea", "Hos"),
   ("Joel", "Joel"), ("Amos", "Amos"), ("Obadiah", "Obad"), ("Jonah", "Jonah"),
   ("Micah", "Mic"), ("Nahum", "Nah"), ("Habakkuk", "Hab"), ("Zephaniah", "Zeph"),
   ("Haggai", "Hag"), ("Zechariah", "Zech"), ("Malachi", "Mal"), ("Matthew", "Matt"),
   ("Mark", "Mark"), ("Luke", "Luke"), ("John", "John"), ("Acts", "Acts"),
   ("Romans", "Rom"), ("1 Corinthians", "1 Cor"), ("2 Corinthians", "2 Cor"), ("Galatians", "Gal"),
   ("Ephesians", "Eph"), ("Philippians", "Phil"), ("Colossians", "Col"),
   ("1 Thessalonians", "1 Thess"), ("2 Thessalonians", "2 Thess"), ("1 Timothy", "1 Tim"),
   ("2 Timothy", "2 Tim"), ("Titus", "Titus"), ("Philemon", "Phlm"), ("Hebrews", "Heb"),
   ("James", "Jas"), ("1 Peter", "1 Pet"), ("2 Peter", "2 Pet"), ("1 John", "1 John"),
   ("2 John", "2 John"), ("3 John", "3 John"), ("Jude", "Jude"), ("Revelation", "Rev")]

/-- JS object-key assignment used while building `abbreviationToBookName`
(later writes to the same key overwrite, new keys append). -/
def objSet (m : List (String × String)) (key v : String) : List (String × String) :=
  if m.any (fun p => p.1 == key) then
    m.map (fun p => if p.1 == key then (key, v) else p)
  else m ++ [(key, v)]

/-- The derived `abbreviationToBookName` object: for each `(name, abbr)`
pair, both `abbr.toLowerCase().replace(/\s/g, '')` and
`abbr.toLowerCase()` are mapped to `name`. -/
def abbreviationToBookName : List (String × String) :=
  bookNameToAbbreviation.foldl
    (fun acc p => objSet (objSet acc (removeWsS (lowerS p.2)) p.1) (lowerS p.2) p.1) []

def objGet (m : List (String × String)) (key : String) : Option String :=
  (m.find? (fun p => p.1 == key)).map (fun p => p.2)

/-- `p` is a prefix of `s` (JS `String.prototype.startsWith`). -/
def startsWithL : List Char → List Char → Bool
  | _, [] => true
  | [], _ :: _ => false
  | c :: cs, d :: ds => c == d && startsWithL cs ds

/-- `findBookMetadata(query)`: case-insensitive full-name match, then the
abbreviation table (query with and without internal whitespace), then the
hard-coded "song of songs" alias, then a case-insensitive prefix match on
the canonical names; otherwise `null`. -/
def findBookMetadata (query : String) : Option BookMeta :=
  let cleanedQuery := lowerS (trimS query)
  let cleanedQueryNoSpace := removeWsS cleanedQuery
  match BIBLE_META.find? (fun b => lowerS b.name == cleanedQuery) with
  | some m => some m
  | none =>
    let bookNameFromAbbr :=
      (objGet abbreviationToBookName cleanedQueryNoSpace).orElse
        (fun _ => objGet abbreviationToBookName cleanedQuery)
    let viaAbbr :=
      match bookNameFromAbbr with
      | some nm => BIBLE_META.find? (fun b => b.name == nm)
      | none => none
    match viaAbbr with
    | some m => some m
    | none =>
      if cleanedQuery == "song of songs" then
        BIBLE_META.find? (fun b => b.name == "Song of Solomon")
      else
        BIBLE_META.find? (fun b => startsWithL (lowerS b.name).data cleanedQuery.data)

/-- Inner loop of `levenshtein`: compute the tail of the current row from
the previous row (`prev` starts at column `j`, `lastCur` is
`currentRow[j]`). -/
def levRowTail (c1 : Char) : List Char → List Nat → Nat → List Nat
  | [], _, _ => []
  | c2 :: s2r, prev, lastCur =>
    match prev with
    | [] => []
    | p0 :: rest =>
      let insertions := rest.headD 0 + 1
      let deletions := lastCur + 1
      let substitutions := p0 + (if c1 = c2 then 0 else 1)
      let m := min insertions (min deletions substitutions)
      m :: levRowTail c1 s2r rest m

/-- Row-by-row dynamic program of `levenshtein` once `s1` is the longer
string. -/
def levenshteinGo (l1 l2 : List Char) : Nat :=
  if l2.length = 0 then l1.length
  else
    let finalRow := l1.foldl
      (fun previousRow c1 =>
        let first := previousRow.headD 0 + 1
        first :: levRowTail c1 l2 previousRow first)
      (List.range (l2.length + 1))
    finalRow.getD l2.length 0

/-- The string-edit-distance routine of `services/bibleService` (present
in the module but not consulted by `findBookMetadata`). -/
def levenshtein (s1 s2 : String) : Nat :=
  if s1.length < s2.length then levenshteinGo s2.data s1.data
  else levenshteinGo s1.data s2.data

/-! ### Telugu corpus lookup -/

structure TeluguVerseRec where
  Verseid : String
  Verse : String
deriving DecidableEq, Repr

structure TeluguChapter where
  Verse : List TeluguVerseRec
deriving DecidableEq, Repr

structure TeluguBook where
  Chapter : List TeluguChapter
deriving DecidableEq, Repr

structure TeluguBible where
  Book : List TeluguBook
deriving DecidableEq, Repr

/-- `bookNameToIndexMap` lookup: index of the book in the static table. -/
def bookNameToIndex (book : String) : Option Nat :=
  BIBLE_META.findIdx? (fun b => b.name == book)

/-- `getTeluguVerse(book, chapter, verse)`: nested indexed lookup into the
static corpus; any structural mismatch yields `none`.  (JS indexes with
`chapter - 1` / `verse - 1`; an index of `-1` reads `undefined`, modelled
by the explicit zero guards.) -/
def getTeluguVerse (book : String) (chapter verse : Nat) (data : TeluguBible) :
    Option String :=
  match bookNameToIndex book with
  | none => none
  | some bookIndex =>
    if chapter = 0 || verse = 0 then none
    else
      match data.Book.get? bookIndex with
      | none => none
      | some bk =>
        match bk.Chapter.get? (chapter - 1) with
        | none => none
        | some ch =>
          match ch.Verse.get? (verse - 1) with
          | none => none
          | some v => some v.Verse

/-! ### Fetch-and-merge operations

A `BibleApiResponse` carries the verse list consumed by the merge logic
(the response's reference/translation metadata fields are never read).
The two HTTP fetches of each operation are supplied as
`Except String BibleApiResponse` values: `.error` is a non-OK HTTP status
(the thrown `HTTP error!` message), which rejects the joined pair and
propagates. -/

structure BibleApiVerse where
  book_id : String
  book_name : String
  chapter : Nat
  verse : Nat
  text : String
deriving DecidableEq, Repr

structure BibleApiResponse where
  verses : List BibleApiVerse
deriving DecidableEq, Repr

/-- Whitespace normalization applied to each English verse text:
`text.replace(/\n/g, ' ').trim()`. -/
def normalizeText (s : String) : String :=
  trimS ⟨s.data.map (fun c => if c = '\n' then ' ' else c)⟩

/-- The per-verse text record (`Verse.text`); `BSI_TELUGU` is present only
when the Telugu lookup produced a truthy (non-empty) string. -/
structure VerseText where
  KJV : String
  ESV : String
  NIV : String
  BSI_TELUGU : Option String
deriving DecidableEq, Repr

structure Verse where
  verse : Nat
  text : VerseText
deriving DecidableEq, Repr

structure FullVerse where
  book : String
  chapter : Nat
  verse : Nat
  text : VerseText
deriving DecidableEq, Repr

def teluguSlot (t : Option String) : Option String :=
  match t with
  | some s => if s == "" then none else some s
  | none => none

/-- Body of `fetchChapter`'s merge map: pair each KJV verse with the
same-numbered web verse (falling back to the KJV text) and the Telugu
line. -/
def mergeChapterVerse (book : String) (chapter : Nat) (webData : BibleApiResponse)
    (telugu : TeluguBible) (kjvVerse : BibleApiVerse) : Verse :=
  let webVerse := webData.verses.find? (fun v => v.verse == kjvVerse.verse)
  let teluguVerse := getTeluguVerse book chapter kjvVerse.verse telugu
  let kjvText := normalizeText kjvVerse.text
  let webText := match webVerse with
    | some w => normalizeText w.text
    | none => kjvText
  { verse := kjvVerse.verse,
    text := { KJV := kjvText, ESV := webText, NIV := webText,
              BSI_TELUGU := teluguSlot teluguVerse } }

/-- `fetchChapter(book, chapter)`: join the two translation fetches; an
empty KJV verse list is a hard failure for the whole chapter; otherwise
merge one record per KJV verse. -/
def fetchChapter (book : String) (chapter : Nat)
    (webRes kjvRes : Except String BibleApiResponse) (telugu : TeluguBible) :
    Except String (List Verse) :=
  match webRes, kjvRes with
  | .error e, _ => .error e
  | .ok _, .error e => .error e
  | .ok webData, .ok kjvData =>
    if kjvData.verses.isEmpty then
      .error ("No KJV verses found for " ++ book ++ " " ++ toString chapter)
    else
      .ok (kjvData.verses.map (mergeChapterVerse book chapter webData telugu))

/-- A parsed scripture reference (`types.ts` `ParsedReference`). -/
structure ParsedReference where
  book : String
  chapter : Nat
  startVerse : Nat
  endVerse : Option Nat
deriving DecidableEq, Repr

/-- Body of `fetchVersesByReferences`'s merge map for one reference. -/
def mergeRefVerse (ref : ParsedReference) (webData : BibleApiResponse)
    (telugu : TeluguBible) (kjvVerse : BibleApiVerse) : FullVerse :=
  let teluguVerse := getTeluguVerse ref.book ref.chapter kjvVerse.verse telugu
  let webVerse := webData.verses.find? (fun v => v.verse == kjvVerse.verse)
  let kjvText := normalizeText kjvVerse.text
  let webText := match webVerse with
    | some w => normalizeText w.text
    | none => kjvText
  { book := ref.book, chapter := ref.chapter, verse := kjvVerse.verse,
    text := { KJV := kjvText, ESV := webText, NIV := webText,
              BSI_TELUGU := teluguSlot teluguVerse } }

/-- Per-reference body of `fetchVersesByReferences`: an HTTP failure of
either fetch rejects; an empty KJV verse list is logged
(`console.warn`) and contributes an empty list; otherwise one merged
record per KJV verse. -/
def fetchOneReference (telugu : TeluguBible) (ref : ParsedReference)
    (fetched : Except String (BibleApiResponse × BibleApiResponse)) :
    Except String (List FullVerse) :=
  match fetched with
  | .error e => .error e
  | .ok (webData, kjvData) =>
    if kjvData.verses.isEmpty then .ok []
    else .ok (kjvData.verses.map (mergeRefVerse ref webData telugu))

/-- The outer `Promise.all` of `fetchVersesByReferences`: collect every
reference's verse list, rejecting if any reference rejected. -/
def collectRefs (telugu : TeluguBible) :
    List (ParsedReference × Except String (BibleApiResponse × BibleApiResponse)) →
    Except String (List (List FullVerse))
  | [] => .ok []
  | p :: ps =>
    match fetchOneReference telugu p.1 p.2 with
    | .error e => .error e
    | .ok l =>
      match collectRefs telugu ps with
      | .error e => .error e
      | .ok ls => .ok (l :: ls)

/-- `fetchVersesByReferences(references)`: one joined fetch pair per
reference; `Promise.all` rejects if any reference's pair rejected, else
the per-reference lists are flattened in input order. -/
def fetchVersesByReferences (references : List ParsedReference)
    (fetchResults : List (Except String (BibleApiResponse × BibleApiResponse)))
    (telugu : TeluguBible) : Except String (List FullVerse) :=
  (collectRefs telugu (references.zip fetchResults)).map List.flatten

/-! ## Reference parser (`App.tsx`, `parseReferencesFromString`)

The source applies the regular expression
`/((\d\s*)?[a-zA-Z\s]+)\s+(\d+):(\d+)(?:-(\d+))?/i` to each trimmed
comma/semicolon-separated segment (`String.prototype.match`, no global
flag: the leftmost match, capture groups included).  The matcher below
implements exactly this pattern with JS semantics: start positions are
tried left to right; greedy quantifiers prefer the longest repetition and
backtrack; the optional groups prefer matching.  Since every quantified
element is a single character class, each quantifier's choices are
exhausted by trying repetition lengths in decreasing order.
-/

/-- Length of the longest prefix whose characters satisfy `p` (the
maximal—greedy—repetition count of a character-class quantifier). -/
def runLen (p : Char → Bool) : List Char → Nat
  | [] => 0
  | c :: cs => if p c then runLen p cs + 1 else 0

/-- Capture groups of a successful match of the reference regex:
`g1` is the book token `((\d\s*)?[a-zA-Z\s]+)`, `g3`/`g4` the
chapter/verse digit groups, `g5` the optional end-verse digits. -/
structure RefCaps where
  g1 : List Char
  g3 : List Char
  g4 : List Char
  g5 : Option (List Char)
deriving DecidableEq, Repr

/-- Match the tail `\s+(\d+):(\d+)(?:-(\d+))?` at the start of `cs`.
All steps are forced: `\s`, `\d`, `:` and `-` are pairwise disjoint
classes, so greedy runs admit no backtracking, and the optional
`-(\d+)` group (preferred when present) ends the pattern. -/
def matchTail (cs : List Char) : Option (List Char × List Char × Option (List Char)) :=
  let w := runLen isWsCh cs
  if w = 0 then none
  else
    let cs1 := cs.drop w
    let d := runLen isDigitCh cs1
    if d = 0 then none
    else
      let g3 := cs1.take d
      match cs1.drop d with
      | ':' :: cs3 =>
        let e := runLen isDigitCh cs3
        if e = 0 then none
        else
          let g4 := cs3.take e
          match cs3.drop e with
          | '-' :: cs5 =>
            let f := runLen isDigitCh cs5
            if f = 0 then some (g3, g4, none)
            else some (g3, g4, some (cs5.take f))
          | _ => some (g3, g4, none)
      | _ => none

/-- Backtracking over the greedy `[a-zA-Z\s]+` class: try taking
`n, n-1, …, 1` characters of `cs` (all within the maximal run), matching
the tail pattern after each attempt.  `pre` holds the part of group 1
already fixed by the optional `(\d\s*)` group. -/
def tryBookLens (pre cs : List Char) : Nat → Option RefCaps
  | 0 => none
  | n + 1 =>
    match matchTail (cs.drop (n + 1)) with
    | some (g3, g4, g5) => some ⟨pre ++ cs.take (n + 1), g3, g4, g5⟩
    | none => tryBookLens pre cs n

def tryBookRun (pre cs : List Char) : Option RefCaps :=
  tryBookLens pre cs (runLen isBookCh cs)

/-- Backtracking over the greedy `\s*` inside `(\d\s*)`: try `m, m-1, …, 0`
whitespace characters after the digit `d`, then the book-character
class. -/
def tryWsLens (d : Char) (cs : List Char) : Nat → Option RefCaps
  | 0 => tryBookRun [d] cs
  | m + 1 =>
    match tryBookRun (d :: cs.take (m + 1)) (cs.drop (m + 1)) with
    | some caps => some caps
    | none => tryWsLens d cs m

/-- Attempt the whole pattern anchored at the head of `cs`.  The optional
`(\d\s*)?` group is greedy: when the first character is a digit the
digit-branch is preferred, and skipping the group then requires
`[a-zA-Z\s]+` to match at that digit, which fails. -/
def matchG1At (cs : List Char) : Option RefCaps :=
  match cs with
  | [] => none
  | c :: rest =>
    if isDigitCh c then
      match tryWsLens c rest (runLen isWsCh rest) with
      | some caps => some caps
      | none => tryBookRun [] cs
    else tryBookRun [] cs

/-- Leftmost match: try each start position from the left
(`String.prototype.match` without the global flag). -/
def findRefMatch : List Char → Option RefCaps
  | [] => none
  | c :: rest =>
    match matchG1At (c :: rest) with
    | some caps => some caps
    | none => findRefMatch rest

/-- `parseInt(digits, 10)` on an all-digit capture. -/
def digitsToNat (cs : List Char) : Nat :=
  cs.foldl (fun n c => n * 10 + (c.toNat - 48)) 0

def isSepCh (c : Char) : Bool := c = ',' || c = ';'

/-- JS `split(/[,;]/g)`: split at every separator, keeping empty
segments. -/
def splitSeps : List Char → List (List Char)
  | [] => [[]]
  | c :: rest =>
    if isSepCh c then [] :: splitSeps rest
    else
      match splitSeps rest with
      | s :: ss => (c :: s) :: ss
      | [] => [[c]]

/-- Loop body of `parseReferencesFromString` for one segment: trim, skip
when empty, apply the regex, skip when it fails, resolve the trimmed book
token, skip when unknown, else build the `ParsedReference`. -/
def parseSegmentRef (part : List Char) : Option ParsedReference :=
  let trimmedPart := trimL part
  if trimmedPart.isEmpty then none
  else
    match findRefMatch trimmedPart with
    | none => none
    | some caps =>
      let bookQuery : String := ⟨trimL caps.g1⟩
      match findBookMetadata bookQuery with
      | none => none
      | some bookMeta =>
        some { book := bookMeta.name,
               chapter := digitsToNat caps.g3,
               startVerse := digitsToNat caps.g4,
               endVerse := caps.g5.map digitsToNat }

/-- `parseReferencesFromString(refString)`: split on commas/semicolons and
push each segment's successfully parsed reference, in segment order. -/
def parseReferencesFromString (refString : String) : List ParsedReference :=
  (splitSeps refString.data).foldl
    (fun parsedReferences part =>
      match parseSegmentRef part with
      | some r => parsedReferences ++ [r]
      | none => parsedReferences)
    []

/-- Shape of a book token as the reference regex can consume it: a
leading digit or letter, followed by letters and whitespace only, with at
least one letter present.  Every letter-containing query that
`findBookMetadata` resolves has this shape after trimming. -/
def bookTokenB (t : List Char) : Bool :=
  match t with
  | [] => false
  | c :: r => (isDigitCh c || isLetterCh c) && r.all isBookCh && (c :: r).any isLetterCh

/-! ## Spec-side definitions used for refinement claims -/

/-- `BookMatcher.resolve` as the specification words it (section 4.1):
case-insensitive exact full-name match, then the abbreviation table tried
without and with internal whitespace, then the "Song of Songs" alias,
then a case-insensitive prefix match on the canonical names, else
not-found.  This definition mentions no string-edit-distance routine at
all: comparing it with `findBookMetadata` witnesses that resolution never
consults `levenshtein`. -/
def findBookMetadataSpec (query : String) : Option BookMeta :=
  match BIBLE_META.find? (fun b => lowerS b.name == lowerS (trimS query)) with
  | some m => some m
  | none =>
    match (objGet abbreviationToBookName (removeWsS (lowerS (trimS query)))).orElse
        (fun _ => objGet abbreviationToBookName (lowerS (trimS query))) with
    | some nm => BIBLE_META.find? (fun b => b.name == nm)
    | none =>
      if lowerS (trimS query) == "song of songs" then
        BIBLE_META.find? (fun b => b.name == "Song of Solomon")
      else
        BIBLE_META.find? (fun b => startsWithL (lowerS b.name).data
          (lowerS (trimS query)).data)

/-- The parser contract as the specification words it (section 4.2):
split the input on commas/semicolons, parse each segment independently,
silently drop the failures, and emit the survivors in segment order. -/
def parseReferencesSpec (text : String) : List ParsedReference :=
  (splitSeps text.data).filterMap parseSegmentRef

/-! ## Helper lemmas -/

theorem mapGet_set_self (m : List (String × String)) (key v : String) :
    mapGet (mapSet m key v) key = some v := by
  unfold mapSet
  split
  · rename_i hany
    induction m with
    | nil => simp at hany
    | cons a m ih =>
      by_cases ha : a.1 == key
      · simp [mapGet, List.find?, ha]
      · have hany' : m.any (fun p => p.1 == key) = true := by
          simpa [List.any_cons, ha] using hany
        simpa [mapGet, List.find?, ha] using ih hany'
  · rename_i hany
    induction m with
    | nil => simp [mapGet, List.find?]
    | cons a m ih =>
      have ha : (a.1 == key) = false := by
        by_contra hc
        exact hany (by simp [List.any_cons, eq_true_of_ne_false hc])
      have hany' : ¬ m.any (fun p => p.1 == key) = true := by
        intro hm
        exact hany (by simp [List.any_cons, hm])
      simpa [mapGet, List.find?, ha] using ih hany'

theorem find?_append_of_none {α : Type} (l1 l2 : List α) (p : α → Bool)
    (h : l1.find? p = none) : (l1 ++ l2).find? p = l2.find? p := by
  induction l1 with
  | nil => simp
  | cons a l ih =>
    by_cases ha : p a
    · rw [List.find?_cons_of_pos _ ha] at h
      exact absurd h (by simp)
    · rw [List.find?_cons_of_neg _ ha] at h
      rw [List.cons_append, List.find?_cons_of_neg _ ha]
      exact ih h

theorem cooldownErrorMsg_ne_empty (c n : Nat) : cooldownErrorMsg c n ≠ "" := by
  intro h
  have hd := congrArg String.data h
  simp only [cooldownErrorMsg] at hd
  rw [String.data_append, String.data_append] at hd
  simp at hd

theorem cooldownErrorMsg_beq_empty (c n : Nat) : (cooldownErrorMsg c n == "") = false := by
  exact beq_eq_false_iff_ne.mpr (cooldownErrorMsg_ne_empty c n)

/-- When the credential is present, `getAiInstance` succeeds and only
(possibly) flips the `ai` flag. -/
theorem getAiInstance_ok (st : AIState) :
    getAiInstance true st = .ok { st with ai := true } := by
  unfold getAiInstance
  by_cases h : st.ai
  · simp [h]
    cases st
    simp_all
  · simp [h]

/-- `safeGenerate` never touches the chat-session map. -/
theorem safeGenerate_chatInstances (model prompt : String) (apiKey : Bool) (now : Nat)
    (net : Nat → NetResult) (st : AIState) (k : Nat) :
    (safeGenerate model prompt apiKey now net st k).state.chatInstances =
      st.chatInstances := by
  unfold safeGenerate getAiInstance
  by_cases hc : now < st.cooldownUntil
  · simp [hc]
  · simp only [hc, if_false]
    by_cases hai : st.ai
    · simp only [hai, Bool.not_true, Bool.false_eq_true, if_false]
      cases net k with
      | ok t => simp
      | err m =>
        by_cases hrl : isRateLimitMsg m
        · simp [hrl]
        · simp [hrl]
    · by_cases hkey : apiKey
      · simp only [hai, hkey, Bool.not_false, if_true, Bool.not_true,
          Bool.false_eq_true, if_false]
        cases net k with
        | ok t => simp
        | err m =>
          by_cases hrl : isRateLimitMsg m
          · simp [hrl]
          · simp [hrl]
      · have hkey' : apiKey = false := by simpa using hkey
        simp [hai, hkey']

/-! ## Claims about the AI gateway -/

/-- C1 (amended): while the process-wide cooldown is active
(`now < cooldownUntil`), `generate` (`safeGenerate`), `analyze` on a cache
miss (`getVerseAnalysis`), `keywordSearch` (`searchBibleByKeyword`, which
surfaces the failure as an empty string) and `converse` on the
`gemini-2.5-flash` tier all fail fast with the cooldown error naming the
remaining seconds and perform no network call; `converse` on any other
tier sends the message through its chat session and performs its network
call without consulting the cooldown.  After the cooldown has elapsed a
request proceeds normally, and a request failing with a rate-limit signal
(message containing "429" or "RESOURCE_EXHAUSTED") arms
`cooldownUntil = now + 60000`. -/
theorem C1_cooldown_gateway
    (model prompt message keyword : String) (history : List Message)
    (verseRef : VerseReference) (aty : AnalysisType)
    (apiKey : Bool) (now : Nat) (net : Nat → NetResult) (st : AIState) (k : Nat)
    (hcool : now < st.cooldownUntil)
    (hmiss : mapGet st.verseCache (analysisCacheKey verseRef aty) = none) :
    safeGenerate model prompt apiKey now net st k =
      { result := .error (cooldownErrorMsg st.cooldownUntil now), state := st, k := k } ∧
    getVerseAnalysis verseRef aty apiKey now net st k =
      { result := .error (cooldownErrorMsg st.cooldownUntil now), state := st, k := k } ∧
    searchBibleByKeyword keyword apiKey now net st k =
      { text := "", state := st, k := k } ∧
    sendMessageToBot message history "gemini-2.5-flash" apiKey now net st k =
      { text := cooldownErrorMsg st.cooldownUntil now, state := st, k := k,
        usedChat := none } ∧
    (∀ mode, mode ≠ "gemini-2.5-flash" →
      (sendMessageToBot message history mode true now net st k).k = k + 1) ∧
    (∀ now2 m, st.cooldownUntil ≤ now2 → net k = .err m → isRateLimitMsg m = true →
      safeGenerate model prompt true now2 net st k =
        { result := .error busyMsg,
          state := { st with ai := true, cooldownUntil := now2 + 60000 },
          k := k + 1 }) ∧
    (∀ now2 t, st.cooldownUntil ≤ now2 → net k = .ok t →
      safeGenerate model prompt true now2 net st k =
        { result := .ok t, state := { st with ai := true }, k := k + 1 }) := by
  have hsg : safeGenerate model prompt apiKey now net st k =
      { result := .error (cooldownErrorMsg st.cooldownUntil now), state := st, k := k } := by
    unfold safeGenerate
    simp [hcool]
  have hsg2 : safeGenerate "gemini-2.5-flash-lite" (analysisPrompt verseRef aty)
      apiKey now net st k =
      { result := .error (cooldownErrorMsg st.cooldownUntil now), state := st, k := k } := by
    unfold safeGenerate
    simp [hcool]
  refine ⟨hsg, ?_, ?_, ?_, ?_, ?_, ?_⟩
  · unfold getVerseAnalysis
    rw [hmiss, hsg2]
  · unfold searchBibleByKeyword
    have hsg3 : safeGenerate "gemini-2.5-flash-lite" (keywordSearchPrompt keyword)
        apiKey now net st k =
        { result := .error (cooldownErrorMsg st.cooldownUntil now), state := st, k := k } := by
      unfold safeGenerate
      simp [hcool]
    rw [hsg3]
  · unfold sendMessageToBot
    have hsg4 : safeGenerate "gemini-2.5-flash" message apiKey now net st k =
        { result := .error (cooldownErrorMsg st.cooldownUntil now), state := st, k := k } := by
      unfold safeGenerate
      simp [hcool]
    rw [if_pos (by rfl), hsg4]
    simp [cooldownErrorMsg_beq_empty]
  · intro mode hmode
    unfold sendMessageToBot
    have hm : (mode == "gemini-2.5-flash") = false := beq_eq_false_iff_ne.mpr hmode
    rw [hm]
    simp only [Bool.false_eq_true, if_false]
    unfold getChat
    cases hfind : st.chatInstances.find? (fun p => p.1 == mode) with
    | some p =>
      simp only []
      cases net k <;> simp
    | none =>
      rw [getAiInstance_ok]
      simp only []
      cases net k <;> simp
  · intro now2 m hle hnet hrl
    unfold safeGenerate
    rw [getAiInstance_ok]
    simp [Nat.not_lt.mpr hle, hnet, hrl]
  · intro now2 t hle hnet
    unfold safeGenerate
    rw [getAiInstance_ok]
    simp [Nat.not_lt.mpr hle, hnet]

/-- Witness for C1 at a concrete cooling-down state. -/
theorem C1_cooldown_gateway_witness :
    ((0 : Nat) < 60000 ∧
      mapGet ([] : List (String × String))
        (analysisCacheKey ⟨"John", 3, 16⟩ .historicalContext) = none) ∧
    safeGenerate "gemini-2.5-flash-lite" "p" true 0 (fun _ => .ok "r")
        { ai := false, cooldownUntil := 60000, verseCache := [],
          chatInstances := [], nextChatId := 0 } 0 =
      { result := .error (cooldownErrorMsg 60000 0),
        state := { ai := false, cooldownUntil := 60000, verseCache := [],
                   chatInstances := [], nextChatId := 0 }, k := 0 } :=
  ⟨⟨by decide, by rfl⟩,
    (C1_cooldown_gateway "gemini-2.5-flash-lite" "p" "hi" "faith" []
      ⟨"John", 3, 16⟩ .historicalContext true 0 (fun _ => .ok "r")
      { ai := false, cooldownUntil := 60000, verseCache := [],
        chatInstances := [], nextChatId := 0 } 0 (by decide) (by rfl)).1⟩

/-- C1 (counterexample): with the cooldown active, a `converse` call on a
tier other than `gemini-2.5-flash` still performs a network call (the
call counter advances to 1) and returns the remote reply instead of a
cooldown error. -/
theorem C1_converse_bypasses_cooldown_cex :
    (0 : Nat) < 60000 ∧
    sendMessageToBot "hello" [] "gemini-2.5-pro" true 0 (fun _ => .ok "reply")
        { ai := false, cooldownUntil := 60000, verseCache := [],
          chatInstances := [], nextChatId := 0 } 0 =
      { text := "reply",
        state := { ai := true, cooldownUntil := 60000, verseCache := [],
                   chatInstances :=
                     [("gemini-2.5-pro", ⟨0, "gemini-2.5-pro", expertSystemInstruction⟩)],
                   nextChatId := 1 },
        k := 1,
        usedChat := some ⟨0, "gemini-2.5-pro", expertSystemInstruction⟩ } :=
  ⟨by decide, by rfl⟩

/-- C2 (amended): for every tier other than `gemini-2.5-flash`, the first
`converse` call creates the tier's session lazily — with `model` equal to
the tier and the fixed Bible-scholar system instruction, and no further
configuration — and every subsequent call for that tier reuses that same
session; the `gemini-2.5-flash` tier instead performs a stateless one-shot
generation through no session at all. -/
theorem C2_sessions_per_tier
    (message message2 : String) (history history2 : List Message) (mode : String)
    (now now2 : Nat) (net net2 : Nat → NetResult) (st : AIState) (k k2 : Nat)
    (hmode : mode ≠ "gemini-2.5-flash")
    (hnone : st.chatInstances.find? (fun p => p.1 == mode) = none) :
    (sendMessageToBot message history mode true now net st k).usedChat =
      some ⟨st.nextChatId, mode, expertSystemInstruction⟩ ∧
    (sendMessageToBot message history mode true now net st k).state.chatInstances =
      st.chatInstances ++ [(mode, ⟨st.nextChatId, mode, expertSystemInstruction⟩)] ∧
    (sendMessageToBot message2 history2 mode true now2 net2
        (sendMessageToBot message history mode true now net st k).state k2).usedChat =
      some ⟨st.nextChatId, mode, expertSystemInstruction⟩ ∧
    (sendMessageToBot message2 history2 mode true now2 net2
        (sendMessageToBot message history mode true now net st k).state k2).state.chatInstances =
      (sendMessageToBot message history mode true now net st k).state.chatInstances ∧
    (∀ msg hist apiKey k3,
      (sendMessageToBot msg hist "gemini-2.5-flash" apiKey now net st k3).usedChat = none ∧
      (sendMessageToBot msg hist "gemini-2.5-flash" apiKey now net st k3).state.chatInstances =
        st.chatInstances) := by
  have hm : (mode == "gemini-2.5-flash") = false := beq_eq_false_iff_ne.mpr hmode
  have hout : sendMessageToBot message history mode true now net st k =
      { text := (match net k with
          | .ok t => t
          | .err m => if m == "" then "AI error" else m),
        state := { st with
                   ai := true
                   chatInstances :=
                     st.chatInstances ++ [(mode, ⟨st.nextChatId, mode, expertSystemInstruction⟩)]
                   nextChatId := st.nextChatId + 1 },
        k := k + 1,
        usedChat := some ⟨st.nextChatId, mode, expertSystemInstruction⟩ } := by
    unfold sendMessageToBot
    rw [hm]
    simp only [Bool.false_eq_true, if_false]
    unfold getChat
    rw [hnone, getAiInstance_ok]
    simp only []
    cases net k <;> simp
  have hfind2 : ((st.chatInstances ++
      [(mode, (⟨st.nextChatId, mode, expertSystemInstruction⟩ : ChatSession))]).find?
      (fun p => p.1 == mode)) =
      some (mode, ⟨st.nextChatId, mode, expertSystemInstruction⟩) := by
    rw [find?_append_of_none _ _ _ hnone]
    simp [List.find?]
  refine ⟨by rw [hout], by rw [hout], ?_, ?_, ?_⟩
  · rw [hout]
    unfold sendMessageToBot
    rw [hm]
    simp only [Bool.false_eq_true, if_false]
    unfold getChat
    simp only []
    rw [hfind2]
    cases net2 k2 <;> simp
  · rw [hout]
    unfold sendMessageToBot
    rw [hm]
    simp only [Bool.false_eq_true, if_false]
    unfold getChat
    simp only []
    rw [hfind2]
    cases net2 k2 <;> simp
  · intro msg hist apiKey k3
    unfold sendMessageToBot
    rw [if_pos (by rfl)]
    have hc := safeGenerate_chatInstances "gemini-2.5-flash" msg apiKey now net st k3
    cases hsg : safeGenerate "gemini-2.5-flash" msg apiKey now net st k3 with
    | mk res st1 k1 =>
      rw [hsg] at hc
      cases res <;> simp_all

/-- Witness for C2 on a fresh state and the `gemini-2.5-pro` tier. -/
theorem C2_sessions_per_tier_witness :
    ("gemini-2.5-pro" ≠ "gemini-2.5-flash" ∧
      (([] : List (String × ChatSession)).find? (fun p => p.1 == "gemini-2.5-pro")) = none) ∧
    (sendMessageToBot "q1" [] "gemini-2.5-pro" true 0 (fun _ => .ok "a1")
        { ai := false, cooldownUntil := 0, verseCache := [],
          chatInstances := [], nextChatId := 0 } 0).usedChat =
      some ⟨0, "gemini-2.5-pro", expertSystemInstruction⟩ :=
  ⟨⟨by decide, by rfl⟩,
    (C2_sessions_per_tier "q1" "q2" [] [] "gemini-2.5-pro" 0 0
      (fun _ => .ok "a1") (fun _ => .ok "a2")
      { ai := false, cooldownUntil := 0, verseCache := [],
        chatInstances := [], nextChatId := 0 } 0 0 (by decide) (by rfl)).1⟩

/-- C2 (counterexample): a `converse` call on the `gemini-2.5-flash` tier
is answered by a stateless one-shot generation — no session is used and
none is created — so it is not a turn in a persistent per-tier session
and the first call for that tier creates nothing. -/
theorem C2_flash_has_no_session_cex :
    sendMessageToBot "hi" [] "gemini-2.5-flash" true 0 (fun _ => .ok "r")
        { ai := false, cooldownUntil := 0, verseCache := [],
          chatInstances := [], nextChatId := 0 } 0 =
      { text := "r",
        state := { ai := true, cooldownUntil := 0, verseCache := [],
                   chatInstances := [], nextChatId := 0 },
        k := 1, usedChat := none } := by
  rfl

/-- C3: if a first `analyze` call for a key succeeds with text `t`, any
second call with the same `(book, chapter, verse, analysisKind)` key — at
any later time, any cooldown state, any credential and any network
behaviour — returns exactly the stored `t`, leaves the gateway state
unchanged and performs no network call.  In particular the cache hit is
served before the cooldown is consulted (the timestamp `now2` is
arbitrary, so the hit also succeeds while `now2 < cooldownUntil`). -/
theorem C3_analysis_cache_hit
    (verseRef : VerseReference) (aty : AnalysisType)
    (apiKey apiKey2 : Bool) (now now2 : Nat) (net net2 : Nat → NetResult)
    (st : AIState) (k k2 : Nat) (t : String)
    (h : (getVerseAnalysis verseRef aty apiKey now net st k).result = .ok t) :
    getVerseAnalysis verseRef aty apiKey2 now2 net2
        (getVerseAnalysis verseRef aty apiKey now net st k).state k2 =
      { result := .ok t,
        state := (getVerseAnalysis verseRef aty apiKey now net st k).state,
        k := k2 } := by
  unfold getVerseAnalysis at h ⊢
  cases hcache : mapGet st.verseCache (analysisCacheKey verseRef aty) with
  | some t0 =>
    simp only [hcache] at h ⊢
    have ht : t0 = t := by
      simpa using h
    subst ht
    simp [hcache]
  | none =>
    simp only [hcache] at h ⊢
    cases hg : safeGenerate "gemini-2.5-flash-lite" (analysisPrompt verseRef aty)
        apiKey now net st k with
    | mk res st1 k1 =>
      simp only [hg] at h ⊢
      cases res with
      | ok t1 =>
        simp only [] at h ⊢
        have ht : t1 = t := by
          simpa using h
        subst ht
        simp [mapGet_set_self]
      | error m =>
        simp at h

/-- Witness for C3: a successful first call on a fresh state, followed by
a cache hit while a cooldown is active. -/
theorem C3_analysis_cache_hit_witness :
    (getVerseAnalysis ⟨"John", 3, 16⟩ .historicalContext true 0 (fun _ => .ok "ctx")
        { ai := false, cooldownUntil := 0, verseCache := [],
          chatInstances := [], nextChatId := 0 } 0).result = .ok "ctx" ∧
    getVerseAnalysis ⟨"John", 3, 16⟩ .historicalContext false 1
        (fun _ => .err "HTTP 429")
        (getVerseAnalysis ⟨"John", 3, 16⟩ .historicalContext true 0 (fun _ => .ok "ctx")
          { ai := false, cooldownUntil := 0, verseCache := [],
            chatInstances := [], nextChatId := 0 } 0).state 7 =
      { result := .ok "ctx",
        state := (getVerseAnalysis ⟨"John", 3, 16⟩ .historicalContext true 0
            (fun _ => .ok "ctx")
            { ai := false, cooldownUntil := 0, verseCache := [],
              chatInstances := [], nextChatId := 0 } 0).state,
        k := 7 } :=
  ⟨by rfl,
    C3_analysis_cache_hit ⟨"John", 3, 16⟩ .historicalContext true false 0 1
      (fun _ => .ok "ctx") (fun _ => .err "HTTP 429")
      { ai := false, cooldownUntil := 0, verseCache := [],
        chatInstances := [], nextChatId := 0 } 0 7 "ctx" (by rfl)⟩

/-! ## List lemmas for the merge claims -/

theorem dropWhile_dropWhile (p : Char → Bool) (l : List Char) :
    (l.dropWhile p).dropWhile p = l.dropWhile p := by
  induction l with
  | nil => rfl
  | cons a l ih =>
    by_cases h : p a
    · rw [List.dropWhile_cons_of_pos h]
      exact ih
    · rw [List.dropWhile_cons_of_neg h, List.dropWhile_cons_of_neg h]

theorem head_dropWhile_false (p : Char → Bool) (l : List Char) (c : Char)
    (h : (l.dropWhile p).head? = some c) : p c = false := by
  induction l with
  | nil => simp [List.dropWhile] at h
  | cons a l ih =>
    by_cases ha : p a
    · rw [List.dropWhile_cons_of_pos ha] at h
      exact ih h
    · rw [List.dropWhile_cons_of_neg ha] at h
      simp at h
      subst h
      simpa using ha

theorem dropWhile_eq_self_of_head (p : Char → Bool) (l : List Char)
    (h : ∀ c, l.head? = some c → p c = false) : l.dropWhile p = l := by
  cases l with
  | nil => rfl
  | cons a l =>
    rw [List.dropWhile_cons_of_neg]
    simp [h a rfl]

theorem trimL_trimL (l : List Char) : trimL (trimL l) = trimL l := by
  unfold trimL
  have hsplit : ((l.dropWhile isWsCh).reverse.dropWhile isWsCh).reverse ++
      ((l.dropWhile isWsCh).reverse.takeWhile isWsCh).reverse = l.dropWhile isWsCh := by
    rw [← List.reverse_append, List.takeWhile_append_dropWhile, List.reverse_reverse]
  have hB : (((l.dropWhile isWsCh).reverse.dropWhile isWsCh).reverse).dropWhile isWsCh =
      ((l.dropWhile isWsCh).reverse.dropWhile isWsCh).reverse := by
    apply dropWhile_eq_self_of_head
    intro c hc
    have hhead : (l.dropWhile isWsCh).head? = some c := by
      rw [← hsplit]
      cases hBl : ((l.dropWhile isWsCh).reverse.dropWhile isWsCh).reverse with
      | nil => rw [hBl] at hc; simp at hc
      | cons b B' =>
        rw [hBl] at hc
        simp at hc
        subst hc
        rfl
    exact head_dropWhile_false _ _ _ hhead
  rw [hB, List.reverse_reverse, dropWhile_dropWhile]

theorem trimL_sublist (l : List Char) : (trimL l).Sublist l := by
  unfold trimL
  have h1 : ((l.dropWhile isWsCh).reverse.dropWhile isWsCh).Sublist
      (l.dropWhile isWsCh).reverse := List.dropWhile_sublist _
  have h2 := h1.reverse
  rw [List.reverse_reverse] at h2
  exact h2.trans (List.dropWhile_sublist _)

theorem normalizeText_trimmed (s : String) :
    trimL (normalizeText s).data = (normalizeText s).data := by
  unfold normalizeText trimS
  exact trimL_trimL _

theorem normalizeText_noNewline (s : String) :
    ∀ c ∈ (normalizeText s).data, c ≠ '\n' := by
  unfold normalizeText trimS
  intro c hc
  have hc' : c ∈ (s.data.map fun c => if c = '\n' then ' ' else c) :=
    (trimL_sublist _).mem hc
  rcases List.mem_map.mp hc' with ⟨d, _, hd⟩
  by_cases hdn : d = '\n'
  · rw [← hd]
    simp [hdn]
  · rw [← hd]
    simp [hdn]

/-- Every per-reference list collected by a successful `collectRefs` comes
from a successful `fetchOneReference` on one of the input pairs. -/
theorem collectRefs_ok_mem (telugu : TeluguBible)
    (xs : List (ParsedReference × Except String (BibleApiResponse × BibleApiResponse)))
    (ys : List (List FullVerse)) (h : collectRefs telugu xs = .ok ys) :
    ∀ y ∈ ys, ∃ x ∈ xs, fetchOneReference telugu x.1 x.2 = .ok y := by
  induction xs generalizing ys with
  | nil =>
    unfold collectRefs at h
    cases h
    simp
  | cons a l ih =>
    unfold collectRefs at h
    cases hfa : fetchOneReference telugu a.1 a.2 with
    | error e => rw [hfa] at h; cases h
    | ok b =>
      rw [hfa] at h
      cases hml : collectRefs telugu l with
      | error e => rw [hml] at h; cases h
      | ok bs =>
        rw [hml] at h
        cases h
        intro y hy
        rcases List.mem_cons.mp hy with hy | hy
        · exact ⟨a, by simp, by rw [hfa, hy]⟩
        · rcases ih bs hml y hy with ⟨x, hx, hfx⟩
          exact ⟨x, by simp [hx], hfx⟩

/-! ## Claims about the merge operations -/

/-- C4 (amended): an empty primary (KJV) verse list is a hard failure for
the whole-chapter fetch (`fetchChapter` propagates an error naming the
chapter), but in the multi-reference fetch a reference whose primary
source returns zero verses merely contributes an empty list (after a
logged warning) and the remaining references are processed normally. -/
theorem C4_empty_primary_failure :
    (∀ (book : String) (chapter : Nat) (webData kjvData : BibleApiResponse)
        (telugu : TeluguBible), kjvData.verses = [] →
      fetchChapter book chapter (.ok webData) (.ok kjvData) telugu =
        .error ("No KJV verses found for " ++ book ++ " " ++ toString chapter)) ∧
    (∀ (r : ParsedReference) (rs : List ParsedReference)
        (webData kjvData : BibleApiResponse)
        (fs : List (Except String (BibleApiResponse × BibleApiResponse)))
        (telugu : TeluguBible), kjvData.verses = [] →
      fetchVersesByReferences (r :: rs) (.ok (webData, kjvData) :: fs) telugu =
        fetchVersesByReferences rs fs telugu) := by
  constructor
  · intro book chapter webData kjvData telugu h
    unfold fetchChapter
    simp [h]
  · intro r rs webData kjvData fs telugu h
    unfold fetchVersesByReferences
    rw [List.zip_cons_cons]
    have hone : fetchOneReference telugu r (.ok (webData, kjvData)) = .ok [] := by
      unfold fetchOneReference
      simp [h]
    have hstep : collectRefs telugu ((r, .ok (webData, kjvData)) :: rs.zip fs) =
        match fetchOneReference telugu r (.ok (webData, kjvData)) with
        | .error e => .error e
        | .ok l =>
          match collectRefs telugu (rs.zip fs) with
          | .error e => .error e
          | .ok ls => .ok (l :: ls) := rfl
    rw [hstep, hone]
    cases hml : collectRefs telugu (rs.zip fs) with
    | error e => rfl
    | ok ls => simp [Except.map]

/-- Witness for C4 at concrete inputs: the chapter fetch fails hard, the
multi-reference fetch skips the empty reference. -/
theorem C4_empty_primary_failure_witness :
    fetchChapter "Genesis" 1 (.ok ⟨[]⟩) (.ok ⟨[]⟩) ⟨[]⟩ =
      .error "No KJV verses found for Genesis 1" :=
  C4_empty_primary_failure.1 "Genesis" 1 ⟨[]⟩ ⟨[]⟩ ⟨[]⟩ rfl

/-- C4 (counterexample): a multi-reference fetch whose single reference
gets zero KJV verses returns `.ok []` (a silent empty result), not a
failure. -/
theorem C4_multi_ref_silent_empty_cex :
    fetchVersesByReferences [⟨"John", 99, 1, none⟩] [.ok (⟨[]⟩, ⟨[]⟩)] ⟨[]⟩ =
      .ok [] := by
  rfl

/-- C6: the merged chapter contains exactly one verse per primary (KJV)
verse, in the primary order (the i-th merged verse carries the i-th KJV
verse number), and when the web source lacks a verse number the
secondary-translation (ESV) slot falls back to the KJV text of that
verse. -/
theorem C6_merge_primary_order (book : String) (chapter : Nat)
    (webData kjvData : BibleApiResponse) (telugu : TeluguBible)
    (hne : kjvData.verses ≠ []) :
    ∃ l, fetchChapter book chapter (.ok webData) (.ok kjvData) telugu = .ok l ∧
      l.length = kjvData.verses.length ∧
      (∀ i, (l.get? i).map Verse.verse =
        (kjvData.verses.get? i).map BibleApiVerse.verse) ∧
      (∀ i kv, kjvData.verses.get? i = some kv →
        webData.verses.find? (fun v => v.verse == kv.verse) = none →
        (l.get? i).map (fun v => v.text.ESV) = some (normalizeText kv.text)) := by
  have hie : kjvData.verses.isEmpty = false := by
    cases hv : kjvData.verses with
    | nil => exact absurd hv hne
    | cons a t => rfl
  refine ⟨kjvData.verses.map (mergeChapterVerse book chapter webData telugu), ?_, ?_, ?_, ?_⟩
  · unfold fetchChapter
    simp [hie]
  · simp
  · intro i
    rw [List.get?_map]
    cases kjvData.verses.get? i with
    | none => rfl
    | some kv => rfl
  · intro i kv hkv hfind
    rw [List.get?_map, hkv]
    unfold mergeChapterVerse
    simp [hfind]

/-- Witness for C6 on the spec's example shape: five primary verses, the
secondary source missing verse 3. -/
theorem C6_merge_primary_order_witness :
    ∃ l, fetchChapter "John" 1
        (.ok ⟨[⟨"JHN", "John", 1, 1, "w1"⟩, ⟨"JHN", "John", 1, 2, "w2"⟩,
              ⟨"JHN", "John", 1, 4, "w4"⟩, ⟨"JHN", "John", 1, 5, "w5"⟩]⟩)
        (.ok ⟨[⟨"JHN", "John", 1, 1, "k1"⟩, ⟨"JHN", "John", 1, 2, "k2"⟩,
              ⟨"JHN", "John", 1, 3, "k3"⟩, ⟨"JHN", "John", 1, 4, "k4"⟩,
              ⟨"JHN", "John", 1, 5, "k5"⟩]⟩) ⟨[]⟩ = .ok l ∧
      l.length = 5 ∧
      (∀ i, (l.get? i).map Verse.verse =
        (([⟨"JHN", "John", 1, 1, "k1"⟩, ⟨"JHN", "John", 1, 2, "k2"⟩,
           ⟨"JHN", "John", 1, 3, "k3"⟩, ⟨"JHN", "John", 1, 4, "k4"⟩,
           ⟨"JHN", "John", 1, 5, "k5"⟩] : List BibleApiVerse).get? i).map
          BibleApiVerse.verse) ∧
      (∀ i kv, ([⟨"JHN", "John", 1, 1, "k1"⟩, ⟨"JHN", "John", 1, 2, "k2"⟩,
           ⟨"JHN", "John", 1, 3, "k3"⟩, ⟨"JHN", "John", 1, 4, "k4"⟩,
           ⟨"JHN", "John", 1, 5, "k5"⟩] : List BibleApiVerse).get? i = some kv →
        ([⟨"JHN", "John", 1, 1, "w1"⟩, ⟨"JHN", "John", 1, 2, "w2"⟩,
          ⟨"JHN", "John", 1, 4, "w4"⟩, ⟨"JHN", "John", 1, 5, "w5"⟩] :
            List BibleApiVerse).find? (fun v => v.verse == kv.verse) = none →
        (l.get? i).map (fun v => v.text.ESV) = some (normalizeText kv.text)) :=
  C6_merge_primary_order "John" 1
    ⟨[⟨"JHN", "John", 1, 1, "w1"⟩, ⟨"JHN", "John", 1, 2, "w2"⟩,
      ⟨"JHN", "John", 1, 4, "w4"⟩, ⟨"JHN", "John", 1, 5, "w5"⟩]⟩
    ⟨[⟨"JHN", "John", 1, 1, "k1"⟩, ⟨"JHN", "John", 1, 2, "k2"⟩,
      ⟨"JHN", "John", 1, 3, "k3"⟩, ⟨"JHN", "John", 1, 4, "k4"⟩,
      ⟨"JHN", "John", 1, 5, "k5"⟩]⟩ ⟨[]⟩ (by decide)

/-! ### Inversion and per-verse lemmas for C9/C10 -/

theorem fetchChapter_ok_inv (book : String) (chapter : Nat)
    (webData kjvData : BibleApiResponse) (telugu : TeluguBible) (l : List Verse)
    (h : fetchChapter book chapter (.ok webData) (.ok kjvData) telugu = .ok l) :
    l = kjvData.verses.map (mergeChapterVerse book chapter webData telugu) := by
  unfold fetchChapter at h
  by_cases hie : kjvData.verses.isEmpty
  · simp [hie] at h
  · simp only [hie, Bool.false_eq_true, if_false] at h
    cases h
    rfl

theorem fetchVersesByReferences_ok_inv (refs : List ParsedReference)
    (fs : List (Except String (BibleApiResponse × BibleApiResponse)))
    (telugu : TeluguBible) (l : List FullVerse)
    (h : fetchVersesByReferences refs fs telugu = .ok l) :
    ∃ ls, collectRefs telugu (refs.zip fs) = .ok ls ∧ l = ls.flatten := by
  unfold fetchVersesByReferences at h
  cases hc : collectRefs telugu (refs.zip fs) with
  | error e => rw [hc] at h; cases h
  | ok ls =>
    rw [hc] at h
    refine ⟨ls, rfl, ?_⟩
    simpa [Except.map] using h.symm

theorem fetchOneReference_ok_inv (telugu : TeluguBible) (ref : ParsedReference)
    (fetched : Except String (BibleApiResponse × BibleApiResponse))
    (l : List FullVerse) (h : fetchOneReference telugu ref fetched = .ok l) :
    l = [] ∨ ∃ webData kjvData, fetched = .ok (webData, kjvData) ∧
      l = kjvData.verses.map (mergeRefVerse ref webData telugu) := by
  unfold fetchOneReference at h
  cases fetched with
  | error e => cases h
  | ok pair =>
    obtain ⟨webData, kjvData⟩ := pair
    by_cases hie : kjvData.verses.isEmpty
    · simp only [hie, if_true] at h
      cases h
      exact Or.inl rfl
    · simp only [hie, Bool.false_eq_true, if_false] at h
      cases h
      exact Or.inr ⟨webData, kjvData, rfl, rfl⟩

/-- A stored `BSI_TELUGU` slot is exactly the (non-empty) corpus lookup. -/
theorem teluguSlot_some (x : Option String) (t : String)
    (h : teluguSlot x = some t) : x = some t := by
  cases x with
  | none => exact Option.noConfusion h
  | some s =>
    have h' : (if (s == "") = true then none else some s) = some t := h
    by_cases hs : (s == "") = true
    · rw [if_pos hs] at h'
      cases h'
    · rw [if_neg hs] at h'
      cases h'
      rfl

theorem normalized_props (s : String) :
    (∀ c ∈ (normalizeText s).data, c ≠ '\n') ∧
    trimL (normalizeText s).data = (normalizeText s).data :=
  ⟨normalizeText_noNewline s, normalizeText_trimmed s⟩

/-- The fields of one chapter-merged verse: verse number from the primary
verse, all three English slots normalized, ESV and NIV identical (the web
text, or the KJV text when the web source lacks the verse number), and
the Telugu slot exactly the corpus lookup. -/
theorem mergeChapterVerse_props (book : String) (chapter : Nat)
    (webData : BibleApiResponse) (telugu : TeluguBible) (kv : BibleApiVerse) :
    (mergeChapterVerse book chapter webData telugu kv).verse = kv.verse ∧
    (mergeChapterVerse book chapter webData telugu kv).text.KJV = normalizeText kv.text ∧
    (mergeChapterVerse book chapter webData telugu kv).text.ESV =
      (mergeChapterVerse book chapter webData telugu kv).text.NIV ∧
    ((mergeChapterVerse book chapter webData telugu kv).text.ESV =
        normalizeText kv.text ∨
      ∃ w ∈ webData.verses, w.verse = kv.verse ∧
        (mergeChapterVerse book chapter webData telugu kv).text.ESV =
          normalizeText w.text) ∧
    (∀ t, (mergeChapterVerse book chapter webData telugu kv).text.BSI_TELUGU = some t →
      getTeluguVerse book chapter kv.verse telugu = some t) := by
  unfold mergeChapterVerse
  cases hfind : webData.verses.find? (fun v => v.verse == kv.verse) with
  | none =>
    refine ⟨rfl, rfl, rfl, Or.inl rfl, ?_⟩
    intro t ht
    exact teluguSlot_some _ _ ht
  | some w =>
    have hw : w ∈ webData.verses := List.mem_of_find?_eq_some hfind
    have hwv : w.verse = kv.verse := by
      have := List.find?_some hfind
      simpa using this
    refine ⟨rfl, rfl, rfl, Or.inr ⟨w, hw, hwv, rfl⟩, ?_⟩
    intro t ht
    exact teluguSlot_some _ _ ht

/-- The fields of one reference-merged verse (same shape as the chapter
merge, plus the reference's book and chapter). -/
theorem mergeRefVerse_props (ref : ParsedReference) (webData : BibleApiResponse)
    (telugu : TeluguBible) (kv : BibleApiVerse) :
    (mergeRefVerse ref webData telugu kv).book = ref.book ∧
    (mergeRefVerse ref webData telugu kv).chapter = ref.chapter ∧
    (mergeRefVerse ref webData telugu kv).verse = kv.verse ∧
    (mergeRefVerse ref webData telugu kv).text.KJV = normalizeText kv.text ∧
    (mergeRefVerse ref webData telugu kv).text.ESV =
      (mergeRefVerse ref webData telugu kv).text.NIV ∧
    ((mergeRefVerse ref webData telugu kv).text.ESV = normalizeText kv.text ∨
      ∃ w ∈ webData.verses, w.verse = kv.verse ∧
        (mergeRefVerse ref webData telugu kv).text.ESV = normalizeText w.text) ∧
    (∀ t, (mergeRefVerse ref webData telugu kv).text.BSI_TELUGU = some t →
      getTeluguVerse ref.book ref.chapter kv.verse telugu = some t) := by
  unfold mergeRefVerse
  cases hfind : webData.verses.find? (fun v => v.verse == kv.verse) with
  | none =>
    refine ⟨rfl, rfl, rfl, rfl, rfl, Or.inl rfl, ?_⟩
    intro t ht
    exact teluguSlot_some _ _ ht
  | some w =>
    have hw : w ∈ webData.verses := List.mem_of_find?_eq_some hfind
    have hwv : w.verse = kv.verse := by
      have := List.find?_some hfind
      simpa using this
    refine ⟨rfl, rfl, rfl, rfl, rfl, Or.inr ⟨w, hw, hwv, rfl⟩, ?_⟩
    intro t ht
    exact teluguSlot_some _ _ ht

/-- C10: in every merged verse produced by `fetchChapter` or
`fetchVersesByReferences`, the ESV and NIV fields are identical — both
carry the web-translation text for that verse number, or the KJV text
when the web source lacks it — so selecting either version displays the
same string. -/
theorem C10_esv_niv_identical :
    (∀ (book : String) (chapter : Nat) (webData kjvData : BibleApiResponse)
        (telugu : TeluguBible) (l : List Verse),
      fetchChapter book chapter (.ok webData) (.ok kjvData) telugu = .ok l →
      ∀ v ∈ l, v.text.ESV = v.text.NIV ∧
        (v.text.ESV = v.text.KJV ∨
          ∃ w ∈ webData.verses, w.verse = v.verse ∧
            v.text.ESV = normalizeText w.text)) ∧
    (∀ (refs : List ParsedReference)
        (fs : List (Except String (BibleApiResponse × BibleApiResponse)))
        (telugu : TeluguBible) (l : List FullVerse),
      fetchVersesByReferences refs fs telugu = .ok l →
      ∀ v ∈ l, v.text.ESV = v.text.NIV) := by
  constructor
  · intro book chapter webData kjvData telugu l h v hv
    have hl := fetchChapter_ok_inv _ _ _ _ _ _ h
    subst hl
    rcases List.mem_map.mp hv with ⟨kv, hkv, hveq⟩
    subst hveq
    obtain ⟨hverse, hKJV, hEN, hdisj, _⟩ :=
      mergeChapterVerse_props book chapter webData telugu kv
    refine ⟨hEN, ?_⟩
    rcases hdisj with h1 | ⟨w, hw, hwv, hwe⟩
    · left
      rw [h1, hKJV]
    · right
      exact ⟨w, hw, by rw [hverse]; exact hwv, hwe⟩
  · intro refs fs telugu l h v hv
    rcases fetchVersesByReferences_ok_inv _ _ _ _ h with ⟨ls, hc, hl⟩
    subst hl
    rcases List.mem_flatten.mp hv with ⟨y, hy, hvy⟩
    rcases collectRefs_ok_mem _ _ _ hc y hy with ⟨x, _, hfx⟩
    rcases fetchOneReference_ok_inv _ _ _ _ hfx with h0 | ⟨webData, kjvData, _, hy2⟩
    · subst h0
      cases hvy
    · subst hy2
      rcases List.mem_map.mp hvy with ⟨kv, _, hveq⟩
      subst hveq
      exact (mergeRefVerse_props x.1 webData telugu kv).2.2.2.2.1

/-- Witness for C10 on a one-verse chapter where the web source has the
verse. -/
theorem C10_esv_niv_identical_witness :
    (⟨16, ⟨"kjv1", "web1", "web1", none⟩⟩ : Verse).text.ESV =
      (⟨16, ⟨"kjv1", "web1", "web1", none⟩⟩ : Verse).text.NIV ∧
    ((⟨16, ⟨"kjv1", "web1", "web1", none⟩⟩ : Verse).text.ESV =
        (⟨16, ⟨"kjv1", "web1", "web1", none⟩⟩ : Verse).text.KJV ∨
      ∃ w ∈ [(⟨"JHN", "John", 3, 16, "web1"⟩ : BibleApiVerse)],
        w.verse = (⟨16, ⟨"kjv1", "web1", "web1", none⟩⟩ : Verse).verse ∧
          (⟨16, ⟨"kjv1", "web1", "web1", none⟩⟩ : Verse).text.ESV =
            normalizeText w.text) :=
  C10_esv_niv_identical.1 "John" 3 ⟨[⟨"JHN", "John", 3, 16, "web1"⟩]⟩
    ⟨[⟨"JHN", "John", 3, 16, "kjv1"⟩]⟩ ⟨[]⟩
    [⟨16, ⟨"kjv1", "web1", "web1", none⟩⟩] rfl
    ⟨16, ⟨"kjv1", "web1", "web1", none⟩⟩ (by simp)

/-- C9 (amended): in every merged verse, the three English translation
slots (KJV, ESV, NIV) have embedded line breaks collapsed to single
spaces and are trimmed before storage (no `'\n'` remains and the stored
string is trim-stable); the secondary-language (`BSI_TELUGU`) line,
however, is stored exactly as returned by the corpus lookup, with no
normalization. -/
theorem C9_whitespace_normalization :
    (∀ (book : String) (chapter : Nat) (webData kjvData : BibleApiResponse)
        (telugu : TeluguBible) (l : List Verse),
      fetchChapter book chapter (.ok webData) (.ok kjvData) telugu = .ok l →
      ∀ v ∈ l,
        ((∀ c ∈ v.text.KJV.data, c ≠ '\n') ∧
          trimL v.text.KJV.data = v.text.KJV.data) ∧
        ((∀ c ∈ v.text.ESV.data, c ≠ '\n') ∧
          trimL v.text.ESV.data = v.text.ESV.data) ∧
        ((∀ c ∈ v.text.NIV.data, c ≠ '\n') ∧
          trimL v.text.NIV.data = v.text.NIV.data) ∧
        (∀ t, v.text.BSI_TELUGU = some t →
          getTeluguVerse book chapter v.verse telugu = some t)) ∧
    (∀ (refs : List ParsedReference)
        (fs : List (Except String (BibleApiResponse × BibleApiResponse)))
        (telugu : TeluguBible) (l : List FullVerse),
      fetchVersesByReferences refs fs telugu = .ok l →
      ∀ v ∈ l,
        ((∀ c ∈ v.text.KJV.data, c ≠ '\n') ∧
          trimL v.text.KJV.data = v.text.KJV.data) ∧
        ((∀ c ∈ v.text.ESV.data, c ≠ '\n') ∧
          trimL v.text.ESV.data = v.text.ESV.data) ∧
        ((∀ c ∈ v.text.NIV.data, c ≠ '\n') ∧
          trimL v.text.NIV.data = v.text.NIV.data) ∧
        (∀ t, v.text.BSI_TELUGU = some t →
          getTeluguVerse v.book v.chapter v.verse telugu = some t)) := by
  constructor
  · intro book chapter webData kjvData telugu l h v hv
    have hl := fetchChapter_ok_inv _ _ _ _ _ _ h
    subst hl
    rcases List.mem_map.mp hv with ⟨kv, _, hveq⟩
    subst hveq
    obtain ⟨hverse, hKJV, hEN, hdisj, hBSI⟩ :=
      mergeChapterVerse_props book chapter webData telugu kv
    have hESV : (∀ c ∈ (mergeChapterVerse book chapter webData telugu kv).text.ESV.data,
        c ≠ '\n') ∧
        trimL (mergeChapterVerse book chapter webData telugu kv).text.ESV.data =
          (mergeChapterVerse book chapter webData telugu kv).text.ESV.data := by
      rcases hdisj with h1 | ⟨w, _, _, hwe⟩
      · rw [h1]
        exact normalized_props kv.text
      · rw [hwe]
        exact normalized_props w.text
    refine ⟨by rw [hKJV]; exact normalized_props kv.text, hESV,
      by rw [← hEN]; exact hESV, ?_⟩
    intro t ht
    rw [hverse]
    exact hBSI t ht
  · intro refs fs telugu l h v hv
    rcases fetchVersesByReferences_ok_inv _ _ _ _ h with ⟨ls, hc, hl⟩
    subst hl
    rcases List.mem_flatten.mp hv with ⟨y, hy, hvy⟩
    rcases collectRefs_ok_mem _ _ _ hc y hy with ⟨x, _, hfx⟩
    rcases fetchOneReference_ok_inv _ _ _ _ hfx with h0 | ⟨webData, kjvData, _, hy2⟩
    · subst h0
      cases hvy
    · subst hy2
      rcases List.mem_map.mp hvy with ⟨kv, _, hveq⟩
      subst hveq
      obtain ⟨hbook, hchap, hverse, hKJV, hEN, hdisj, hBSI⟩ :=
        mergeRefVerse_props x.1 webData telugu kv
      have hESV : (∀ c ∈ (mergeRefVerse x.1 webData telugu kv).text.ESV.data,
          c ≠ '\n') ∧
          trimL (mergeRefVerse x.1 webData telugu kv).text.ESV.data =
            (mergeRefVerse x.1 webData telugu kv).text.ESV.data := by
        rcases hdisj with h1 | ⟨w, _, _, hwe⟩
        · rw [h1]
          exact normalized_props kv.text
        · rw [hwe]
          exact normalized_props w.text
      refine ⟨by rw [hKJV]; exact normalized_props kv.text, hESV,
        by rw [← hEN]; exact hESV, ?_⟩
      intro t ht
      rw [hbook, hchap, hverse]
      exact hBSI t ht

/-- Witness for C9: a chapter fetch whose KJV text carries an embedded
newline and outer whitespace; the stored KJV/ESV/NIV slots are the
normalized text. -/
theorem C9_whitespace_normalization_witness :
    ((∀ c ∈ ("a b" : String).data, c ≠ '\n') ∧
      trimL ("a b" : String).data = ("a b" : String).data) ∧
    ((∀ c ∈ ("a b" : String).data, c ≠ '\n') ∧
      trimL ("a b" : String).data = ("a b" : String).data) ∧
    ((∀ c ∈ ("a b" : String).data, c ≠ '\n') ∧
      trimL ("a b" : String).data = ("a b" : String).data) ∧
    (∀ t, (none : Option String) = some t →
      getTeluguVerse "John" 3
        (⟨16, ⟨"a b", "a b", "a b", none⟩⟩ : Verse).verse ⟨[]⟩ = some t) :=
  C9_whitespace_normalization.1 "John" 3 ⟨[]⟩
    ⟨[⟨"JHN", "John", 3, 16, " a\nb "⟩]⟩ ⟨[]⟩
    [⟨16, ⟨"a b", "a b", "a b", none⟩⟩] rfl
    ⟨16, ⟨"a b", "a b", "a b", none⟩⟩ (by simp)

/-- C9 (counterexample): a secondary-language corpus line containing an
embedded line break is stored verbatim in the merged verse — the claim
that every stored slot has line breaks collapsed and is trimmed fails for
the secondary-language line. -/
theorem C9_secondary_line_verbatim_cex :
    fetchChapter "Genesis" 1 (.ok ⟨[]⟩)
        (.ok ⟨[⟨"GEN", "Genesis", 1, 1, "kjv text"⟩]⟩)
        ⟨[⟨[⟨[⟨"1", "a\nb"⟩]⟩]⟩]⟩ =
      .ok [⟨1, ⟨"kjv text", "kjv text", "kjv text", some "a\nb"⟩⟩] ∧
    '\n' ∈ ("a\nb" : String).data := by
  constructor
  · rfl
  · decide

/-! ## Claims about the book matcher and the parser -/

theorem objGet_some_mem (m : List (String × String)) (k v : String)
    (h : objGet m k = some v) : ∃ p ∈ m, p.2 = v := by
  unfold objGet at h
  cases hf : m.find? (fun p => p.1 == k) with
  | none => rw [hf] at h; cases h
  | some p =>
    rw [hf] at h
    cases h
    exact ⟨p, List.mem_of_find?_eq_some hf, rfl⟩

/-- Every value of the derived abbreviation table names a canonical book
of the static table. -/
theorem abbrev_values_resolve :
    abbreviationToBookName.all
      (fun p => (BIBLE_META.find? (fun b => b.name == p.2)).isSome) = true := by
  decide

/-- C7: `findBookMetadata` treats abbreviations with and without internal
whitespace identically and case-insensitively (`"1Sam"`, `"1 sam"` and
`"1 Samuel"` all resolve to 1 Samuel, and every abbreviation of the
static table resolves equal to its whitespace-stripped form), and for
every query it agrees with the spec's resolution order — exact name,
abbreviation, alias, prefix — which mentions no string-edit-distance
routine, so `levenshtein` is never consulted by resolution. -/
theorem C7_book_matcher :
    findBookMetadata "1Sam" = some ⟨"1 Samuel", 31⟩ ∧
    findBookMetadata "1 sam" = some ⟨"1 Samuel", 31⟩ ∧
    findBookMetadata "1 Samuel" = some ⟨"1 Samuel", 31⟩ ∧
    (∀ entry ∈ bookNameToAbbreviation,
      findBookMetadata entry.2 = findBookMetadata (removeWsS entry.2)) ∧
    (∀ query, findBookMetadata query = findBookMetadataSpec query) := by
  refine ⟨by decide, by decide, by decide, by decide, ?_⟩
  intro query
  simp only [findBookMetadata, findBookMetadataSpec]
  cases h1 : BIBLE_META.find? (fun b => lowerS b.name == lowerS (trimS query)) with
  | some m => rfl
  | none =>
    cases ha : (objGet abbreviationToBookName (removeWsS (lowerS (trimS query)))).orElse
        (fun _ => objGet abbreviationToBookName (lowerS (trimS query))) with
    | none => rfl
    | some nm =>
      have hmem : ∃ p ∈ abbreviationToBookName, p.2 = nm := by
        cases hx : objGet abbreviationToBookName (removeWsS (lowerS (trimS query))) with
        | some v =>
          rw [hx] at ha
          simp only [Option.orElse] at ha
          cases ha
          exact objGet_some_mem _ _ _ hx
        | none =>
          rw [hx] at ha
          simp only [Option.orElse] at ha
          exact objGet_some_mem _ _ _ ha
      rcases hmem with ⟨p, hp, hpv⟩
      have hres : (BIBLE_META.find? (fun b => b.name == nm)).isSome = true := by
        have hall := abbrev_values_resolve
        rw [List.all_eq_true] at hall
        have hv := hall p hp
        rw [hpv] at hv
        exact hv
      cases hfind : BIBLE_META.find? (fun b => b.name == nm) with
      | some m => simp [hfind]
      | none =>
        rw [hfind] at hres
        cases hres

/-- Witness for C7 on a concrete table entry. -/
theorem C7_book_matcher_witness :
    ("1 Samuel", "1 Sam") ∈ bookNameToAbbreviation ∧
    findBookMetadata "1 Sam" = findBookMetadata (removeWsS "1 Sam") :=
  ⟨by decide, C7_book_matcher.2.2.2.1 ("1 Samuel", "1 Sam") (by decide)⟩

theorem parse_fold_filterMap (l : List (List Char)) (acc : List ParsedReference) :
    l.foldl (fun parsedReferences part =>
        match parseSegmentRef part with
        | some r => parsedReferences ++ [r]
        | none => parsedReferences) acc =
      acc ++ l.filterMap parseSegmentRef := by
  induction l generalizing acc with
  | nil => simp
  | cons a l ih =>
    cases hf : parseSegmentRef a with
    | none =>
      rw [List.foldl_cons, List.filterMap_cons, hf]
      exact ih acc
    | some b =>
      rw [List.foldl_cons, List.filterMap_cons, hf]
      rw [ih (acc ++ [b])]
      simp

/-- C8: the parser is total by construction and equals, on every input,
the spec's contract — split the input on commas/semicolons, silently drop
every segment that fails the reference pattern or whose book token does
not resolve, and emit the survivors in segment order, with no reordering
and no deduplication.  The cited instances evaluate accordingly, with a
mid-list unparsable segment dropped and duplicates preserved. -/
theorem C8_parse_total_ordered :
    (∀ s, parseReferencesFromString s = parseReferencesSpec s) ∧
    parseReferencesFromString "John 3:16, Romans 8:28" =
      [⟨"John", 3, 16, none⟩, ⟨"Romans", 8, 28, none⟩] ∧
    parseReferencesFromString "not a ref" = [] ∧
    parseReferencesFromString "John 3:16, nonsense, Romans 8:28" =
      [⟨"John", 3, 16, none⟩, ⟨"Romans", 8, 28, none⟩] ∧
    parseReferencesFromString "John 3:16, John 3:16" =
      [⟨"John", 3, 16, none⟩, ⟨"John", 3, 16, none⟩] := by
  refine ⟨?_, by decide, by decide, by decide, by decide⟩
  intro s
  unfold parseReferencesFromString parseReferencesSpec
  have h := parse_fold_filterMap (splitSeps s.data) []
  simpa using h

/-! ## Character-class lemmas for the parser claim -/

theorem toLowerCh_toNat_of_upper (c : Char) (h1 : 65 ≤ c.toNat) (h2 : c.toNat ≤ 90) :
    (toLowerCh c).toNat = c.toNat + 32 := by
  unfold toLowerCh
  have hb : ('A' ≤ c && c ≤ 'Z') = true := by
    rw [Bool.and_eq_true]
    exact ⟨decide_eq_true h1, decide_eq_true h2⟩
  rw [if_pos hb]
  have hv : Nat.isValidChar (c.toNat + 32) := Or.inl (by omega)
  unfold Char.ofNat
  rw [dif_pos hv]
  rfl

theorem toLowerCh_eq_self (c : Char) (h : ¬ (65 ≤ c.toNat ∧ c.toNat ≤ 90)) :
    toLowerCh c = c := by
  unfold toLowerCh
  rw [if_neg]
  intro hb
  rw [Bool.and_eq_true] at hb
  exact h ⟨of_decide_eq_true hb.1, of_decide_eq_true hb.2⟩

theorem toLowerCh_isLetter (c : Char) : isLetterCh (toLowerCh c) = isLetterCh c := by
  by_cases h : 65 ≤ c.toNat ∧ c.toNat ≤ 90
  · have ht := toLowerCh_toNat_of_upper c h.1 h.2
    have hL : isLetterCh (toLowerCh c) = true := by
      unfold isLetterCh
      rw [Bool.or_eq_true, Bool.and_eq_true]
      exact Or.inl ⟨decide_eq_true (show 97 ≤ (toLowerCh c).toNat by omega),
        decide_eq_true (show (toLowerCh c).toNat ≤ 122 by omega)⟩
    have hR : isLetterCh c = true := by
      unfold isLetterCh
      rw [Bool.or_eq_true, Bool.and_eq_true, Bool.and_eq_true]
      exact Or.inr ⟨decide_eq_true h.1, decide_eq_true h.2⟩
    rw [hL, hR]
  · rw [toLowerCh_eq_self c h]

theorem toLowerCh_isDigit (c : Char) : isDigitCh (toLowerCh c) = isDigitCh c := by
  by_cases h : 65 ≤ c.toNat ∧ c.toNat ≤ 90
  · have ht := toLowerCh_toNat_of_upper c h.1 h.2
    have hL : isDigitCh (toLowerCh c) = false := by
      unfold isDigitCh
      rw [Bool.and_eq_false_iff]
      exact Or.inr (decide_eq_false (show ¬ (toLowerCh c).toNat ≤ 57 by omega))
    have hR : isDigitCh c = false := by
      unfold isDigitCh
      rw [Bool.and_eq_false_iff]
      exact Or.inr (decide_eq_false (show ¬ c.toNat ≤ 57 by omega))
    rw [hL, hR]
  · rw [toLowerCh_eq_self c h]

theorem toLowerCh_isWs (c : Char) : isWsCh (toLowerCh c) = isWsCh c := by
  by_cases h : 65 ≤ c.toNat ∧ c.toNat ≤ 90
  · have ht := toLowerCh_toNat_of_upper c h.1 h.2
    have hL : isWsCh (toLowerCh c) = false := by
      unfold isWsCh
      have e1 : toLowerCh c ≠ ' ' := by
        intro he
        have h' : (toLowerCh c).toNat = 32 := congrArg Char.toNat he
        omega
      have e2 : toLowerCh c ≠ '\t' := by
        intro he
        have h' : (toLowerCh c).toNat = 9 := congrArg Char.toNat he
        omega
      have e3 : toLowerCh c ≠ '\n' := by
        intro he
        have h' : (toLowerCh c).toNat = 10 := congrArg Char.toNat he
        omega
      have e4 : toLowerCh c ≠ '\r' := by
        intro he
        have h' : (toLowerCh c).toNat = 13 := congrArg Char.toNat he
        omega
      simp [e1, e2, e3, e4]
    have hR : isWsCh c = false := by
      unfold isWsCh
      have e1 : c ≠ ' ' := by
        intro he
        have h' : c.toNat = 32 := congrArg Char.toNat he
        omega
      have e2 : c ≠ '\t' := by
        intro he
        have h' : c.toNat = 9 := congrArg Char.toNat he
        omega
      have e3 : c ≠ '\n' := by
        intro he
        have h' : c.toNat = 10 := congrArg Char.toNat he
        omega
      have e4 : c ≠ '\r' := by
        intro he
        have h' : c.toNat = 13 := congrArg Char.toNat he
        omega
      simp [e1, e2, e3, e4]
    rw [hL, hR]
  · rw [toLowerCh_eq_self c h]

theorem toLowerCh_isBook (c : Char) : isBookCh (toLowerCh c) = isBookCh c := by
  unfold isBookCh
  rw [toLowerCh_isLetter, toLowerCh_isWs]

/-- Numeric bounds from a digit-class character. -/
theorem isDigitCh_bounds (c : Char) (h : isDigitCh c = true) :
    48 ≤ c.toNat ∧ c.toNat ≤ 57 := by
  unfold isDigitCh at h
  rw [Bool.and_eq_true] at h
  exact ⟨of_decide_eq_true h.1, of_decide_eq_true h.2⟩

theorem isLetterCh_bounds (c : Char) (h : isLetterCh c = true) :
    (97 ≤ c.toNat ∧ c.toNat ≤ 122) ∨ (65 ≤ c.toNat ∧ c.toNat ≤ 90) := by
  unfold isLetterCh at h
  rw [Bool.or_eq_true, Bool.and_eq_true, Bool.and_eq_true] at h
  rcases h with h | h
  · exact Or.inl ⟨of_decide_eq_true h.1, of_decide_eq_true h.2⟩
  · exact Or.inr ⟨of_decide_eq_true h.1, of_decide_eq_true h.2⟩

theorem isWsCh_toNat (c : Char) (h : isWsCh c = true) :
    c.toNat = 32 ∨ c.toNat = 9 ∨ c.toNat = 10 ∨ c.toNat = 13 := by
  unfold isWsCh at h
  rw [Bool.or_eq_true, Bool.or_eq_true, Bool.or_eq_true] at h
  rcases h with ((h | h) | h) | h <;>
    [exact Or.inl (congrArg Char.toNat (of_decide_eq_true h));
     exact Or.inr (Or.inl (congrArg Char.toNat (of_decide_eq_true h)));
     exact Or.inr (Or.inr (Or.inl (congrArg Char.toNat (of_decide_eq_true h))));
     exact Or.inr (Or.inr (Or.inr (congrArg Char.toNat (of_decide_eq_true h))))]

theorem isWsCh_eq_false_of_toNat (c : Char)
    (h : c.toNat ≠ 32 ∧ c.toNat ≠ 9 ∧ c.toNat ≠ 10 ∧ c.toNat ≠ 13) :
    isWsCh c = false := by
  unfold isWsCh
  have e1 : c ≠ ' ' := fun he => h.1 (congrArg Char.toNat he)
  have e2 : c ≠ '\t' := fun he => h.2.1 (congrArg Char.toNat he)
  have e3 : c ≠ '\n' := fun he => h.2.2.1 (congrArg Char.toNat he)
  have e4 : c ≠ '\r' := fun he => h.2.2.2 (congrArg Char.toNat he)
  simp [e1, e2, e3, e4]

theorem isDigitCh_not_ws (c : Char) (h : isDigitCh c = true) : isWsCh c = false := by
  have hb := isDigitCh_bounds c h
  exact isWsCh_eq_false_of_toNat c (by omega)

theorem isLetterCh_not_ws (c : Char) (h : isLetterCh c = true) : isWsCh c = false := by
  have hb := isLetterCh_bounds c h
  exact isWsCh_eq_false_of_toNat c (by omega)

theorem isDigitCh_not_letter (c : Char) (h : isDigitCh c = true) :
    isLetterCh c = false := by
  have hb := isDigitCh_bounds c h
  unfold isLetterCh
  rw [Bool.or_eq_false_iff, Bool.and_eq_false_iff, Bool.and_eq_false_iff]
  exact ⟨Or.inl (decide_eq_false (show ¬ 97 ≤ c.toNat by omega)),
    Or.inl (decide_eq_false (show ¬ 65 ≤ c.toNat by omega))⟩

theorem isDigitCh_not_book (c : Char) (h : isDigitCh c = true) : isBookCh c = false := by
  unfold isBookCh
  rw [isDigitCh_not_letter c h, isDigitCh_not_ws c h]
  rfl

theorem isWsCh_not_digit (c : Char) (h : isWsCh c = true) : isDigitCh c = false := by
  have hb := isWsCh_toNat c h
  unfold isDigitCh
  rw [Bool.and_eq_false_iff]
  exact Or.inl (decide_eq_false (show ¬ 48 ≤ c.toNat by omega))

theorem isBookCh_cases (c : Char) (h : isBookCh c = true) :
    isLetterCh c = true ∨ isWsCh c = true := by
  unfold isBookCh at h
  rw [Bool.or_eq_true] at h
  exact h

theorem isBookCh_of_letter (c : Char) (h : isLetterCh c = true) : isBookCh c = true := by
  unfold isBookCh
  rw [h]
  rfl

theorem isBookCh_of_ws (c : Char) (h : isWsCh c = true) : isBookCh c = true := by
  unfold isBookCh
  rw [h, Bool.or_true]

theorem isBookCh_not_digit (c : Char) (h : isBookCh c = true) : isDigitCh c = false := by
  rcases isBookCh_cases c h with hl | hw
  · have hb := isLetterCh_bounds c hl
    unfold isDigitCh
    rw [Bool.and_eq_false_iff]
    rcases hb with hb | hb
    · exact Or.inr (decide_eq_false (show ¬ c.toNat ≤ 57 by omega))
    · exact Or.inr (decide_eq_false (show ¬ c.toNat ≤ 57 by omega))
  · exact isWsCh_not_digit c hw

/-- Characters of the three regex classes are never segment separators. -/
theorem isSepCh_eq_false (c : Char)
    (h : isWsCh c = true ∨ isDigitCh c = true ∨ isLetterCh c = true) :
    isSepCh c = false := by
  have hn : c.toNat ≠ 44 ∧ c.toNat ≠ 59 := by
    rcases h with h | h | h
    · have := isWsCh_toNat c h
      omega
    · have := isDigitCh_bounds c h
      omega
    · have := isLetterCh_bounds c h
      omega
  unfold isSepCh
  have e1 : c ≠ ',' := fun he => hn.1 (congrArg Char.toNat he)
  have e2 : c ≠ ';' := fun he => hn.2 (congrArg Char.toNat he)
  simp [e1, e2]

/-! ## List-structure lemmas for the parser claim -/

theorem runLen_nil (p : Char → Bool) : runLen p [] = 0 := rfl

theorem runLen_cons_false (p : Char → Bool) (c : Char) (cs : List Char)
    (h : p c = false) : runLen p (c :: cs) = 0 := by
  unfold runLen
  rw [h]
  rfl

theorem runLen_append_all (p : Char → Bool) (xs ys : List Char)
    (h : ∀ x ∈ xs, p x = true) : runLen p (xs ++ ys) = xs.length + runLen p ys := by
  induction xs with
  | nil => simp
  | cons a l ih =>
    rw [List.cons_append]
    show (if p a = true then runLen p (l ++ ys) + 1 else 0) = (a :: l).length + runLen p ys
    rw [if_pos (h a (by simp)), ih (fun x hx => h x (by simp [hx])), List.length_cons]
    omega

theorem dropWhile_append_all (p : Char → Bool) (xs ys : List Char)
    (h : ∀ x ∈ xs, p x = true) : (xs ++ ys).dropWhile p = ys.dropWhile p := by
  induction xs with
  | nil => rfl
  | cons a l ih =>
    rw [List.cons_append, List.dropWhile_cons_of_pos (h a (by simp))]
    exact ih (fun x hx => h x (by simp [hx]))

theorem mem_takeWhile_ws (p : Char → Bool) (l : List Char) (x : Char)
    (h : x ∈ l.takeWhile p) : p x = true := by
  induction l with
  | nil => cases h
  | cons a t ih =>
    by_cases ha : p a
    · rw [List.takeWhile_cons_of_pos ha] at h
      rcases List.mem_cons.mp h with h | h
      · rw [h]
        exact ha
      · exact ih h
    · rw [List.takeWhile_cons_of_neg ha] at h
      cases h

/-- Any list splits as leading whitespace, its trim, and trailing
whitespace. -/
theorem trimL_decomp (cs : List Char) :
    ∃ l r, cs = l ++ trimL cs ++ r ∧ (∀ x ∈ l, isWsCh x = true) ∧
      (∀ x ∈ r, isWsCh x = true) := by
  refine ⟨cs.takeWhile isWsCh,
    ((cs.dropWhile isWsCh).reverse.takeWhile isWsCh).reverse, ?_, ?_, ?_⟩
  · conv_lhs => rw [← List.takeWhile_append_dropWhile (p := isWsCh) (l := cs)]
    rw [List.append_assoc]
    congr 1
    unfold trimL
    rw [← List.reverse_append, List.takeWhile_append_dropWhile, List.reverse_reverse]
  · exact fun x hx => mem_takeWhile_ws _ _ x hx
  · intro x hx
    rw [List.mem_reverse] at hx
    exact mem_takeWhile_ws _ _ x hx

/-- The region after the leading whitespace is the trim plus trailing
whitespace. -/
theorem dropWhile_ws_eq_trimL_append (cs : List Char) :
    ∃ w, cs.dropWhile isWsCh = trimL cs ++ w ∧ ∀ x ∈ w, isWsCh x = true := by
  refine ⟨((cs.dropWhile isWsCh).reverse.takeWhile isWsCh).reverse, ?_, ?_⟩
  · unfold trimL
    rw [← List.reverse_append, List.takeWhile_append_dropWhile, List.reverse_reverse]
  · intro x hx
    rw [List.mem_reverse] at hx
    exact mem_takeWhile_ws _ _ x hx

theorem head?_trimL (l : List Char) (c : Char) (h : (trimL l).head? = some c) :
    isWsCh c = false := by
  rcases dropWhile_ws_eq_trimL_append l with ⟨w, hw, _⟩
  cases ht : trimL l with
  | nil =>
    rw [ht] at h
    cases h
  | cons b B =>
    rw [ht] at h
    cases h
    have : (l.dropWhile isWsCh).head? = some c := by
      rw [hw, ht]
      rfl
    exact head_dropWhile_false _ _ _ this

theorem trimL_dropWhile (l : List Char) :
    trimL (l.dropWhile isWsCh) = trimL l := by
  unfold trimL
  rw [dropWhile_dropWhile]

theorem mem_trimL_of_not_ws (cs : List Char) (c : Char) (hc : c ∈ cs)
    (hw : isWsCh c = false) : c ∈ trimL cs := by
  rcases trimL_decomp cs with ⟨l, r, hcs, hl, hr⟩
  rw [hcs] at hc
  rcases List.mem_append.mp hc with hc | hc
  · rcases List.mem_append.mp hc with hc | hc
    · rw [hl c hc] at hw
      cases hw
    · exact hc
  · rw [hr c hc] at hw
    cases hw

/-! lowering commutes with the shape predicate -/

theorem all_lowerL_book (r : List Char) :
    (lowerL r).all isBookCh = r.all isBookCh := by
  unfold lowerL
  rw [List.all_map]
  congr 1
  funext x
  exact toLowerCh_isBook x

theorem any_lowerL_letter (r : List Char) :
    (lowerL r).any isLetterCh = r.any isLetterCh := by
  unfold lowerL
  rw [List.any_map]
  congr 1
  funext x
  exact toLowerCh_isLetter x

theorem bookTokenB_lower (t : List Char) : bookTokenB (lowerL t) = bookTokenB t := by
  cases t with
  | nil => rfl
  | cons c r =>
    show ((isDigitCh (toLowerCh c) || isLetterCh (toLowerCh c)) &&
        (lowerL r).all isBookCh && (toLowerCh c :: lowerL r).any isLetterCh) =
      ((isDigitCh c || isLetterCh c) && r.all isBookCh && (c :: r).any isLetterCh)
    rw [toLowerCh_isDigit, toLowerCh_isLetter, all_lowerL_book]
    rw [show (toLowerCh c :: lowerL r) = lowerL (c :: r) from rfl, any_lowerL_letter]

theorem bookTokenB_elim (t : List Char) (h : bookTokenB t = true) :
    ∃ c r, t = c :: r ∧ (isDigitCh c = true ∨ isLetterCh c = true) ∧
      (∀ x ∈ r, isBookCh x = true) ∧ ∃ x ∈ c :: r, isLetterCh x = true := by
  cases t with
  | nil => cases h
  | cons c r =>
    have h' : ((isDigitCh c || isLetterCh c) && r.all isBookCh &&
        (c :: r).any isLetterCh) = true := h
    rw [Bool.and_eq_true, Bool.and_eq_true, Bool.or_eq_true] at h'
    refine ⟨c, r, rfl, h'.1.1, ?_, ?_⟩
    · rw [← List.all_eq_true]
      exact h'.1.2
    · rw [← List.any_eq_true]
      exact h'.2

theorem bookTokenB_intro (c : Char) (r : List Char)
    (h1 : isDigitCh c = true ∨ isLetterCh c = true)
    (h2 : ∀ x ∈ r, isBookCh x = true)
    (h3 : ∃ x ∈ c :: r, isLetterCh x = true) : bookTokenB (c :: r) = true := by
  show ((isDigitCh c || isLetterCh c) && r.all isBookCh &&
      (c :: r).any isLetterCh) = true
  rw [Bool.and_eq_true, Bool.and_eq_true, Bool.or_eq_true]
  exact ⟨⟨h1, by rw [List.all_eq_true]; exact h2⟩, by rw [List.any_eq_true]; exact h3⟩

/-! removeWs reconstruction -/

theorem removeWsL_cons_not_ws (c : Char) (r : List Char) (h : isWsCh c = false) :
    removeWsL (c :: r) = c :: removeWsL r := by
  unfold removeWsL
  rw [List.filter_cons_of_pos (by rw [h]; rfl)]

theorem mem_of_mem_removeWsL (t : List Char) (x : Char) (h : x ∈ removeWsL t) :
    x ∈ t := List.mem_of_mem_filter h

theorem all_book_of_removeWs (r k : List Char) (h : removeWsL r = k)
    (hk : ∀ y ∈ k, isBookCh y = true) : ∀ x ∈ r, isBookCh x = true := by
  intro x hx
  by_cases hw : isWsCh x = true
  · exact isBookCh_of_ws x hw
  · have hxr : x ∈ removeWsL r := by
      unfold removeWsL
      rw [List.mem_filter]
      exact ⟨hx, by simp [hw]⟩
    rw [h] at hxr
    exact hk x hxr

/-! startsWith gives a prefix -/

theorem startsWithL_prefix (s p : List Char) (h : startsWithL s p = true) :
    p <+: s := by
  induction p generalizing s with
  | nil => exact List.nil_prefix
  | cons d ds ih =>
    cases s with
    | nil => cases h
    | cons c cs =>
      unfold startsWithL at h
      rw [Bool.and_eq_true] at h
      rw [List.cons_prefix_cons]
      exact ⟨(beq_iff_eq.mp h.1).symm, ih cs h.2⟩

/-! the static tables are well-shaped (checked by evaluation) -/

theorem bible_meta_token_shapes :
    BIBLE_META.all (fun b => bookTokenB (lowerL b.name.data)) = true := by
  decide

theorem abbrev_keys_shape :
    abbreviationToBookName.all (fun p => bookTokenB p.1.data) = true := by
  decide

theorem objGet_some_key_mem (m : List (String × String)) (k v : String)
    (h : objGet m k = some v) : ∃ p ∈ m, p.1 = k ∧ p.2 = v := by
  unfold objGet at h
  cases hf : m.find? (fun p => p.1 == k) with
  | none => rw [hf] at h; cases h
  | some p =>
    rw [hf] at h
    cases h
    have hp := List.find?_some hf
    exact ⟨p, List.mem_of_find?_eq_some hf, beq_iff_eq.mp hp, rfl⟩

/-- Every letter-containing query resolved by `findBookMetadata` has,
after trimming, the book-token shape the reference regex consumes. -/
theorem resolve_shape (q : String) (m : BookMeta)
    (hq : findBookMetadata q = some m)
    (hletter : ∃ c ∈ q.data, isLetterCh c = true) :
    bookTokenB (trimL q.data) = true := by
  have hlet' : ∃ x ∈ lowerL (trimL q.data), isLetterCh x = true := by
    rcases hletter with ⟨c, hc, hcl⟩
    refine ⟨toLowerCh c, ?_, by rw [toLowerCh_isLetter]; exact hcl⟩
    exact List.mem_map_of_mem _ (mem_trimL_of_not_ws _ _ hc (isLetterCh_not_ws c hcl))
  have hhead' : ∀ x, (lowerL (trimL q.data)).head? = some x → isWsCh x = false := by
    intro x hx
    cases ht : trimL q.data with
    | nil =>
      rw [ht] at hx
      cases hx
    | cons b B =>
      rw [ht] at hx
      have hxb : x = toLowerCh b := by
        have : some (toLowerCh b) = some x := hx
        cases this
        rfl
      subst hxb
      rw [toLowerCh_isWs]
      exact head?_trimL q.data b (by rw [ht]; rfl)
  suffices hsuff : bookTokenB (lowerL (trimL q.data)) = true by
    rw [bookTokenB_lower] at hsuff
    exact hsuff
  have hdata : (lowerS (trimS q)).data = lowerL (trimL q.data) := rfl
  simp only [findBookMetadata] at hq
  cases h1 : BIBLE_META.find? (fun b => lowerS b.name == lowerS (trimS q)) with
  | some mb =>
    have hpred := List.find?_some h1
    have hmem := List.mem_of_find?_eq_some h1
    have heq : lowerL mb.name.data = lowerL (trimL q.data) := by
      have hs : lowerS mb.name = lowerS (trimS q) := beq_iff_eq.mp hpred
      have := congrArg String.data hs
      rw [hdata] at this
      exact this
    have hall := bible_meta_token_shapes
    rw [List.all_eq_true] at hall
    have hshape := hall mb hmem
    rw [heq] at hshape
    exact hshape
  | none =>
    rw [h1] at hq
    simp only [] at hq
    cases ha : (objGet abbreviationToBookName (removeWsS (lowerS (trimS q)))).orElse
        (fun _ => objGet abbreviationToBookName (lowerS (trimS q))) with
    | some nm =>
      have hkeys := abbrev_keys_shape
      rw [List.all_eq_true] at hkeys
      cases hx : objGet abbreviationToBookName (removeWsS (lowerS (trimS q))) with
      | some v =>
        rcases objGet_some_key_mem _ _ _ hx with ⟨p, hp, hpk, _⟩
        have hkey := hkeys p hp
        rw [hpk] at hkey
        have hkeyd : bookTokenB (removeWsL (lowerL (trimL q.data))) = true := by
          have : (removeWsS (lowerS (trimS q))).data =
              removeWsL (lowerL (trimL q.data)) := rfl
          rw [← this]
          exact hkey
        cases ht : lowerL (trimL q.data) with
        | nil =>
          rw [ht] at hkeyd
          cases hkeyd
        | cons c r =>
          have hcws : isWsCh c = false := hhead' c (by rw [ht]; rfl)
          rw [ht, removeWsL_cons_not_ws c r hcws] at hkeyd
          rcases bookTokenB_elim _ hkeyd with ⟨c', r', hcr, hhd, hbook, _⟩
          have hc' : c' = c := by
            cases hcr
            rfl
          have hr' : removeWsL r = r' := by
            cases hcr
            rfl
          subst hc'
          apply bookTokenB_intro
          · exact hhd
          · exact all_book_of_removeWs r r' hr' hbook
          · rw [← ht]
            exact hlet'
      | none =>
        rw [hx] at ha
        simp only [Option.orElse] at ha
        rcases objGet_some_key_mem _ _ _ ha with ⟨p, hp, hpk, _⟩
        have hkey := hkeys p hp
        rw [hpk] at hkey
        rw [← hdata]
        exact hkey
    | none =>
      rw [ha] at hq
      simp only [] at hq
      by_cases halias : (lowerS (trimS q) == "song of songs") = true
      · have hs : lowerS (trimS q) = "song of songs" := beq_iff_eq.mp halias
        have hd := congrArg String.data hs
        rw [hdata] at hd
        rw [hd]
        decide
      · rw [Bool.not_eq_true] at halias
        rw [halias] at hq
        simp only [Bool.false_eq_true, if_false] at hq
        cases h4 : BIBLE_META.find?
            (fun b => startsWithL (lowerS b.name).data (lowerS (trimS q)).data) with
        | none =>
          rw [h4] at hq
          cases hq
        | some mb =>
          have hpred := List.find?_some h4
          have hmem := List.mem_of_find?_eq_some h4
          have hpref : (lowerS (trimS q)).data <+: (lowerS mb.name).data :=
            startsWithL_prefix _ _ hpred
          rw [hdata] at hpref
          have hall := bible_meta_token_shapes
          rw [List.all_eq_true] at hall
          have hshape : bookTokenB (lowerL mb.name.data) = true :=
            hall mb hmem
          rcases bookTokenB_elim _ hshape with ⟨c, r, hcr, hhd, hbook, _⟩
          cases ht : lowerL (trimL q.data) with
          | nil =>
            rcases hlet' with ⟨x, hx, _⟩
            rw [ht] at hx
            cases hx
          | cons c0 p' =>
            rw [ht] at hpref
            have hname : (lowerS mb.name).data = lowerL mb.name.data := rfl
            rw [hname, hcr] at hpref
            rw [List.cons_prefix_cons] at hpref
            obtain ⟨hc0, hp'⟩ := hpref
            subst hc0
            apply bookTokenB_intro
            · exact hhd
            · intro x hx
              exact hbook x (hp'.sublist.subset hx)
            · rw [← ht]
              exact hlet'

/-! ## Evaluation lemmas for the reference-regex matcher -/

theorem runLen_all (p : Char → Bool) (xs : List Char) (h : ∀ x ∈ xs, p x = true) :
    runLen p xs = xs.length := by
  have := runLen_append_all p xs [] h
  simpa using this

theorem drop_append_len (xs ys : List Char) (k : Nat) :
    (xs ++ ys).drop (xs.length + k) = ys.drop k := by
  induction xs with
  | nil => simp
  | cons a l ih =>
    rw [List.cons_append, List.length_cons]
    show (a :: (l ++ ys)).drop (l.length + 1 + k) = ys.drop k
    rw [show l.length + 1 + k = (l.length + k) + 1 by omega]
    rw [List.drop_succ_cons]
    exact ih

theorem dropWhile_append_left (p : Char → Bool) (xs ys : List Char)
    (h : xs.dropWhile p ≠ []) : (xs ++ ys).dropWhile p = xs.dropWhile p ++ ys := by
  induction xs with
  | nil => exact absurd rfl h
  | cons a l ih =>
    by_cases ha : p a
    · rw [List.cons_append, List.dropWhile_cons_of_pos ha,
        List.dropWhile_cons_of_pos ha]
      exact ih (by rwa [List.dropWhile_cons_of_pos ha] at h)
    · rw [List.cons_append, List.dropWhile_cons_of_neg ha,
        List.dropWhile_cons_of_neg ha, List.cons_append]

theorem splitSeps_single (cs : List Char) (h : ∀ x ∈ cs, isSepCh x = false) :
    splitSeps cs = [cs] := by
  induction cs with
  | nil => rfl
  | cons a l ih =>
    unfold splitSeps
    rw [if_neg (by rw [h a (by simp)]; simp)]
    rw [ih (fun x hx => h x (by simp [hx]))]

theorem matchTail_no_ws (cs : List Char) (h : runLen isWsCh cs = 0) :
    matchTail cs = none := by
  simp only [matchTail, h]
  rfl

/-- `matchTail` on a well-formed `\s(\d+):(\d+)(-(\d+))?` tail. -/
theorem matchTail_eval (dC dV topt : List Char) (g5 : Option (List Char))
    (hdC : dC ≠ []) (hdCd : ∀ x ∈ dC, isDigitCh x = true)
    (hdV : dV ≠ []) (hdVd : ∀ x ∈ dV, isDigitCh x = true)
    (hopt : (topt = [] ∧ g5 = none) ∨
      (∃ dW, topt = '-' :: dW ∧ dW ≠ [] ∧ (∀ x ∈ dW, isDigitCh x = true) ∧
        g5 = some dW)) :
    matchTail (' ' :: (dC ++ ':' :: (dV ++ topt))) = some (dC, dV, g5) := by
  rcases List.exists_cons_of_ne_nil hdC with ⟨c0, dC', hc0⟩
  have hw : runLen isWsCh (' ' :: (dC ++ ':' :: (dV ++ topt))) = 1 := by
    show (if isWsCh ' ' = true then runLen isWsCh (dC ++ ':' :: (dV ++ topt)) + 1
      else 0) = 1
    rw [if_pos (by decide)]
    rw [hc0, List.cons_append,
      runLen_cons_false _ _ _ (isDigitCh_not_ws c0 (hdCd c0 (by rw [hc0]; simp)))]
  have hd : runLen isDigitCh (dC ++ ':' :: (dV ++ topt)) = dC.length := by
    rw [runLen_append_all _ _ _ hdCd, runLen_cons_false _ _ _ (by decide)]
    omega
  have hdpos : dC.length ≠ 0 := by
    cases dC
    · exact absurd rfl hdC
    · simp
  have he : runLen isDigitCh (dV ++ topt) = dV.length := by
    rcases hopt with ⟨ht, _⟩ | ⟨dW, ht, _, _, _⟩
    · rw [ht, List.append_nil, runLen_all _ _ hdVd]
    · rw [ht, runLen_append_all _ _ _ hdVd, runLen_cons_false _ _ _ (by decide)]
      omega
  have hepos : dV.length ≠ 0 := by
    cases dV
    · exact absurd rfl hdV
    · simp
  simp only [matchTail, hw]
  rw [if_neg (by omega)]
  rw [List.drop_one, show (' ' :: (dC ++ ':' :: (dV ++ topt))).tail =
    dC ++ ':' :: (dV ++ topt) from rfl]
  rw [hd, if_neg hdpos, List.take_left, List.drop_left]
  simp only []
  rw [he, if_neg hepos, List.take_left, List.drop_left]
  rcases hopt with ⟨ht, hg⟩ | ⟨dW, ht, hWne, hWd, hg⟩
  · rw [ht, hg]
  · rw [ht, hg]
    simp only []
    rw [runLen_all _ _ hWd]
    rw [if_neg (fun h => hWne (List.length_eq_zero.mp h))]
    rw [List.take_length]

/-- The greedy `[a-zA-Z\s]+` backtracks exactly one character (the final
whitespace needed by `\s+`) and captures the whole book run. -/
theorem tryBookRun_eval (pre m tail' : List Char)
    (res : List Char × List Char × Option (List Char))
    (hm : m ≠ []) (hmAll : ∀ x ∈ m, isBookCh x = true)
    (hws0 : runLen isWsCh tail' = 0) (hbook0 : runLen isBookCh tail' = 0)
    (hsucc : matchTail (' ' :: tail') = some res) :
    tryBookRun pre (m ++ ' ' :: tail') = some ⟨pre ++ m, res.1, res.2.1, res.2.2⟩ := by
  obtain ⟨g3, g4, g5⟩ := res
  have hrun : runLen isBookCh (m ++ ' ' :: tail') = m.length + 1 := by
    rw [runLen_append_all _ _ _ hmAll]
    show m.length +
      (if isBookCh ' ' = true then runLen isBookCh tail' + 1 else 0) = m.length + 1
    rw [if_pos (by decide), hbook0]
  rcases List.exists_cons_of_ne_nil hm with ⟨c, m', hm'⟩
  have hlen : m.length = m'.length + 1 := by
    rw [hm']
    rfl
  have hdrop1 : (m ++ ' ' :: tail').drop (m.length + 1) = tail' := by
    have h := drop_append_len m (' ' :: tail') 1
    simpa using h
  have hdrop2 : (m ++ ' ' :: tail').drop m.length = ' ' :: tail' := by
    have h := drop_append_len m (' ' :: tail') 0
    simpa using h
  have htake : (m ++ ' ' :: tail').take m.length = m := List.take_left m (' ' :: tail')
  unfold tryBookRun
  rw [hrun]
  rw [show tryBookLens pre (m ++ ' ' :: tail') (m.length + 1) =
    (match matchTail ((m ++ ' ' :: tail').drop (m.length + 1)) with
     | some (g3, g4, g5) =>
       some ⟨pre ++ (m ++ ' ' :: tail').take (m.length + 1), g3, g4, g5⟩
     | none => tryBookLens pre (m ++ ' ' :: tail') m.length) from rfl]
  rw [hdrop1, matchTail_no_ws _ hws0]
  simp only []
  rw [hlen]
  rw [show tryBookLens pre (m ++ ' ' :: tail') (m'.length + 1) =
    (match matchTail ((m ++ ' ' :: tail').drop (m'.length + 1)) with
     | some (g3, g4, g5) =>
       some ⟨pre ++ (m ++ ' ' :: tail').take (m'.length + 1), g3, g4, g5⟩
     | none => tryBookLens pre (m ++ ' ' :: tail') m'.length) from rfl]
  rw [← hlen, hdrop2, hsucc, htake]

/-- The greedy `\s*` of `(\d\s*)?` takes the whole whitespace run and the
book class the rest, capturing `digit ++ ws-run ++ book-run` as group 1. -/
theorem tryWsLens_eval (d : Char) (w1 bc tail' : List Char)
    (res : List Char × List Char × Option (List Char))
    (hw1ws : ∀ x ∈ w1, isWsCh x = true)
    (hbcne : bc ≠ []) (hbcbook : ∀ x ∈ bc, isBookCh x = true)
    (hws0 : runLen isWsCh tail' = 0) (hbook0 : runLen isBookCh tail' = 0)
    (hsucc : matchTail (' ' :: tail') = some res) :
    tryWsLens d ((w1 ++ bc) ++ ' ' :: tail') w1.length =
      some ⟨d :: (w1 ++ bc), res.1, res.2.1, res.2.2⟩ := by
  cases w1 with
  | nil =>
    show tryBookRun [d] (([] ++ bc) ++ ' ' :: tail') = _
    rw [List.nil_append]
    have h := tryBookRun_eval [d] bc tail' res hbcne hbcbook hws0 hbook0 hsucc
    simpa using h
  | cons y w1' =>
    show (match tryBookRun (d :: (((y :: w1') ++ bc) ++ ' ' :: tail').take (w1'.length + 1))
        ((((y :: w1') ++ bc) ++ ' ' :: tail').drop (w1'.length + 1)) with
      | some caps => some caps
      | none => tryWsLens d (((y :: w1') ++ bc) ++ ' ' :: tail') w1'.length) = _
    have htake : (((y :: w1') ++ bc) ++ ' ' :: tail').take (w1'.length + 1) =
        y :: w1' := by
      rw [List.append_assoc]
      exact List.take_left (y :: w1') (bc ++ ' ' :: tail')
    have hdrop : (((y :: w1') ++ bc) ++ ' ' :: tail').drop (w1'.length + 1) =
        bc ++ ' ' :: tail' := by
      rw [List.append_assoc]
      exact List.drop_left (y :: w1') (bc ++ ' ' :: tail')
    rw [htake, hdrop]
    rw [tryBookRun_eval (d :: y :: w1') bc tail' res hbcne hbcbook hws0 hbook0 hsucc]
    rfl

/-- The whole pattern anchored at the head of a shaped book token:
group 1 captures exactly the token. -/
theorem matchG1At_eval (bb tail' : List Char)
    (res : List Char × List Char × Option (List Char))
    (hshape : bookTokenB bb = true)
    (hws0 : runLen isWsCh tail' = 0) (hbook0 : runLen isBookCh tail' = 0)
    (hsucc : matchTail (' ' :: tail') = some res) :
    matchG1At (bb ++ ' ' :: tail') = some ⟨bb, res.1, res.2.1, res.2.2⟩ := by
  rcases bookTokenB_elim bb hshape with ⟨c, r, hbb, hhd, hbook, hlet⟩
  subst hbb
  rw [List.cons_append]
  show (if isDigitCh c = true then
      (match tryWsLens c (r ++ ' ' :: tail') (runLen isWsCh (r ++ ' ' :: tail')) with
       | some caps => some caps
       | none => tryBookRun [] (c :: (r ++ ' ' :: tail')))
    else tryBookRun [] (c :: (r ++ ' ' :: tail'))) = _
  by_cases hdig : isDigitCh c = true
  · rw [if_pos hdig]
    have hletr : ∃ x ∈ r, isLetterCh x = true := by
      rcases hlet with ⟨x, hx, hxl⟩
      rcases List.mem_cons.mp hx with hx | hx
      · subst hx
        rw [isDigitCh_not_letter x hdig] at hxl
        cases hxl
      · exact ⟨x, hx, hxl⟩
    have hrsplit : r.takeWhile isWsCh ++ r.dropWhile isWsCh = r :=
      List.takeWhile_append_dropWhile isWsCh r
    have hbcne : r.dropWhile isWsCh ≠ [] := by
      intro h0
      rcases hletr with ⟨x, hx, hxl⟩
      rw [← hrsplit, h0, List.append_nil] at hx
      have hxw := mem_takeWhile_ws isWsCh r x hx
      rw [isLetterCh_not_ws x hxl] at hxw
      cases hxw
    have hw1ws : ∀ x ∈ r.takeWhile isWsCh, isWsCh x = true :=
      fun x hx => mem_takeWhile_ws _ _ x hx
    have hbcbook : ∀ x ∈ r.dropWhile isWsCh, isBookCh x = true := by
      intro x hx
      exact hbook x (by rw [← hrsplit]; exact List.mem_append.mpr (Or.inr hx))
    rcases List.exists_cons_of_ne_nil hbcne with ⟨b0, bc', hbc⟩
    have hb0 : isWsCh b0 = false := by
      apply head_dropWhile_false isWsCh r
      rw [hbc]
      rfl
    have hrun : runLen isWsCh (r ++ ' ' :: tail') = (r.takeWhile isWsCh).length := by
      conv_lhs => rw [← hrsplit]
      rw [List.append_assoc, runLen_append_all _ _ _ hw1ws]
      rw [hbc, List.cons_append, runLen_cons_false _ _ _ hb0]
      omega
    rw [hrun]
    generalize hw1e : r.takeWhile isWsCh = w1 at hw1ws hrsplit ⊢
    generalize hbce : r.dropWhile isWsCh = bcl at hbcne hbcbook hrsplit
    rw [← hrsplit]
    rw [tryWsLens_eval c w1 bcl tail' res hw1ws hbcne hbcbook hws0 hbook0 hsucc]
  · rw [if_neg hdig]
    have hcl : isLetterCh c = true := by
      rcases hhd with h | h
      · exact absurd h hdig
      · exact h
    have hall : ∀ x ∈ c :: r, isBookCh x = true := by
      intro x hx
      rcases List.mem_cons.mp hx with hx | hx
      · subst hx
        exact isBookCh_of_letter x hcl
      · exact hbook x hx
    have h := tryBookRun_eval [] (c :: r) tail' res (by simp) hall hws0 hbook0 hsucc
    rw [List.cons_append] at h
    simpa using h

/-- `findBookMetadata` depends on the query only through its trim. -/
theorem findBookMetadata_congr_trim (q1 q2 : String)
    (h : trimL q1.data = trimL q2.data) :
    findBookMetadata q1 = findBookMetadata q2 := by
  have ht : trimS q1 = trimS q2 := congrArg String.mk h
  simp only [findBookMetadata, ht]

/-- Trimming the whole segment only strips the book token's leading
whitespace (the segment ends with a digit). -/
theorem trimL_input (b' tail : List Char) (d : Char) (tinit : List Char)
    (hbne : b'.dropWhile isWsCh ≠ [])
    (hlast : tail = tinit ++ [d]) (hd : isWsCh d = false) :
    trimL (b' ++ ' ' :: tail) = b'.dropWhile isWsCh ++ ' ' :: tail := by
  unfold trimL
  rw [dropWhile_append_left _ _ _ hbne]
  subst hlast
  have hz : b'.dropWhile isWsCh ++ ' ' :: (tinit ++ [d]) =
      (b'.dropWhile isWsCh ++ ' ' :: tinit) ++ [d] := by
    rw [List.append_assoc]
    rfl
  rw [hz, List.reverse_append]
  rw [show ([d] : List Char).reverse ++ (b'.dropWhile isWsCh ++ ' ' :: tinit).reverse =
    d :: (b'.dropWhile isWsCh ++ ' ' :: tinit).reverse from rfl]
  rw [List.dropWhile_cons_of_neg (by rw [hd]; simp)]
  rw [List.reverse_cons, List.reverse_reverse]

theorem bookTokenB_append_ws (t w : List Char) (h : bookTokenB t = true)
    (hw : ∀ x ∈ w, isWsCh x = true) : bookTokenB (t ++ w) = true := by
  rcases bookTokenB_elim t h with ⟨c, r, rfl, hhd, hbook, hlet⟩
  rw [List.cons_append]
  apply bookTokenB_intro
  · exact hhd
  · intro x hx
    rcases List.mem_append.mp hx with hx | hx
    · exact hbook x hx
    · exact isBookCh_of_ws x (hw x hx)
  · rcases hlet with ⟨x, hx, hxl⟩
    refine ⟨x, ?_, hxl⟩
    rcases List.mem_cons.mp hx with hx | hx
    · simp [hx]
    · simp [List.mem_append, hx]

/-- No character of a well-formed reference segment is a separator. -/
theorem input_no_sep (b' dC dV topt : List Char)
    (hshape : bookTokenB (trimL b') = true)
    (hdCd : ∀ x ∈ dC, isDigitCh x = true) (hdVd : ∀ x ∈ dV, isDigitCh x = true)
    (hopt : topt = [] ∨ ∃ dW, topt = '-' :: dW ∧ ∀ x ∈ dW, isDigitCh x = true) :
    ∀ x ∈ b' ++ ' ' :: (dC ++ ':' :: (dV ++ topt)), isSepCh x = false := by
  intro x hx
  rcases List.mem_append.mp hx with hx | hx
  · rcases trimL_decomp b' with ⟨l, r, hb, hl, hr⟩
    rw [hb] at hx
    rcases List.mem_append.mp hx with hx | hx
    · rcases List.mem_append.mp hx with hx | hx
      · exact isSepCh_eq_false x (Or.inl (hl x hx))
      · rcases bookTokenB_elim _ hshape with ⟨c, rr, hcr, hhd, hbook, _⟩
        rw [hcr] at hx
        rcases List.mem_cons.mp hx with hx | hx
        · subst hx
          rcases hhd with h | h
          · exact isSepCh_eq_false _ (Or.inr (Or.inl h))
          · exact isSepCh_eq_false _ (Or.inr (Or.inr h))
        · rcases isBookCh_cases x (hbook x hx) with h | h
          · exact isSepCh_eq_false _ (Or.inr (Or.inr h))
          · exact isSepCh_eq_false _ (Or.inl h)
    · exact isSepCh_eq_false x (Or.inl (hr x hx))
  · rcases List.mem_cons.mp hx with hx | hx
    · subst hx
      decide
    · rcases List.mem_append.mp hx with hx | hx
      · exact isSepCh_eq_false x (Or.inr (Or.inl (hdCd x hx)))
      · rcases List.mem_cons.mp hx with hx | hx
        · subst hx
          decide
        · rcases List.mem_append.mp hx with hx | hx
          · exact isSepCh_eq_false x (Or.inr (Or.inl (hdVd x hx)))
          · rcases hopt with h | ⟨dW, ht, hWd⟩
            · rw [h] at hx
              cases hx
            · rw [ht] at hx
              rcases List.mem_cons.mp hx with hx | hx
              · subst hx
                decide
              · exact isSepCh_eq_false x (Or.inr (Or.inl (hWd x hx)))

/-- Core of the single-reference parsing claim: a segment
`Book C:V[-W]` with a resolving, letter-containing book token parses to
exactly one reference carrying the numeric chapter and verse values. -/
theorem parse_reference_shaped (b : String) (meta : BookMeta)
    (dC dV topt : List Char) (g5 : Option (List Char))
    (hb : findBookMetadata b = some meta)
    (hletter : ∃ c ∈ b.data, isLetterCh c = true)
    (hdC : dC ≠ []) (hdCd : ∀ x ∈ dC, isDigitCh x = true)
    (hdV : dV ≠ []) (hdVd : ∀ x ∈ dV, isDigitCh x = true)
    (hopt : (topt = [] ∧ g5 = none) ∨
      (∃ dW, topt = '-' :: dW ∧ dW ≠ [] ∧ (∀ x ∈ dW, isDigitCh x = true) ∧
        g5 = some dW)) :
    parseReferencesFromString ⟨b.data ++ ' ' :: (dC ++ ':' :: (dV ++ topt))⟩ =
      [{ book := meta.name, chapter := digitsToNat dC,
         startVerse := digitsToNat dV, endVerse := g5.map digitsToNat }] := by
  have hshape : bookTokenB (trimL b.data) = true := resolve_shape b meta hb hletter
  have hbb : bookTokenB (b.data.dropWhile isWsCh) = true := by
    rcases dropWhile_ws_eq_trimL_append b.data with ⟨w, hw, hwall⟩
    rw [hw]
    exact bookTokenB_append_ws _ _ hshape hwall
  have hbne : b.data.dropWhile isWsCh ≠ [] := by
    intro h0
    rw [h0] at hbb
    cases hbb
  have hlastd : ∃ tinit d, dC ++ ':' :: (dV ++ topt) = tinit ++ [d] ∧
      isDigitCh d = true := by
    rcases hopt with ⟨ht, _⟩ | ⟨dW, ht, hWne, hWd, _⟩
    · rcases List.eq_nil_or_concat dV with h | ⟨L, d, hdv⟩
      · exact absurd h hdV
      · refine ⟨dC ++ ':' :: L, d, ?_, hdVd d (by rw [hdv]; simp)⟩
        rw [ht, hdv]
        simp
    · rcases List.eq_nil_or_concat dW with h | ⟨L, d, hdw⟩
      · exact absurd h hWne
      · refine ⟨dC ++ ':' :: (dV ++ '-' :: L), d, ?_, hWd d (by rw [hdw]; simp)⟩
        rw [ht, hdw]
        simp
  have htrim : trimL (b.data ++ ' ' :: (dC ++ ':' :: (dV ++ topt))) =
      b.data.dropWhile isWsCh ++ ' ' :: (dC ++ ':' :: (dV ++ topt)) := by
    rcases hlastd with ⟨tinit, d, hteq, hd⟩
    exact trimL_input _ _ d tinit hbne hteq (isDigitCh_not_ws d hd)
  rcases List.exists_cons_of_ne_nil hdC with ⟨c0, dC', hc0⟩
  have hws0 : runLen isWsCh (dC ++ ':' :: (dV ++ topt)) = 0 := by
    rw [hc0, List.cons_append]
    exact runLen_cons_false _ _ _ (isDigitCh_not_ws c0 (hdCd c0 (by rw [hc0]; simp)))
  have hbook0 : runLen isBookCh (dC ++ ':' :: (dV ++ topt)) = 0 := by
    rw [hc0, List.cons_append]
    exact runLen_cons_false _ _ _ (isDigitCh_not_book c0 (hdCd c0 (by rw [hc0]; simp)))
  have hmt : matchTail (' ' :: (dC ++ ':' :: (dV ++ topt))) = some (dC, dV, g5) :=
    matchTail_eval dC dV topt g5 hdC hdCd hdV hdVd hopt
  have hg1 : matchG1At (b.data.dropWhile isWsCh ++ ' ' :: (dC ++ ':' :: (dV ++ topt))) =
      some ⟨b.data.dropWhile isWsCh, dC, dV, g5⟩ :=
    matchG1At_eval (b.data.dropWhile isWsCh) _ (dC, dV, g5) hbb hws0 hbook0 hmt
  have hfind : findRefMatch
      (b.data.dropWhile isWsCh ++ ' ' :: (dC ++ ':' :: (dV ++ topt))) =
      some ⟨b.data.dropWhile isWsCh, dC, dV, g5⟩ := by
    rcases List.exists_cons_of_ne_nil hbne with ⟨cb, rb, hcb⟩
    rw [hcb, List.cons_append]
    show (match matchG1At (cb :: (rb ++ ' ' :: (dC ++ ':' :: (dV ++ topt)))) with
      | some caps => some caps
      | none => findRefMatch (rb ++ ' ' :: (dC ++ ':' :: (dV ++ topt)))) = _
    rw [← List.cons_append, ← hcb, hg1]
  have hseg : parseSegmentRef (b.data ++ ' ' :: (dC ++ ':' :: (dV ++ topt))) =
      some { book := meta.name, chapter := digitsToNat dC,
             startVerse := digitsToNat dV, endVerse := g5.map digitsToNat } := by
    have hq : findBookMetadata ⟨trimL (b.data.dropWhile isWsCh)⟩ = some meta := by
      rw [← hb]
      apply findBookMetadata_congr_trim
      rw [show (⟨trimL (b.data.dropWhile isWsCh)⟩ : String).data =
        trimL (b.data.dropWhile isWsCh) from rfl]
      rw [trimL_trimL, trimL_dropWhile]
    rcases List.exists_cons_of_ne_nil hbne with ⟨cb, rb, hcb⟩
    unfold parseSegmentRef
    rw [htrim, hcb, List.cons_append]
    show ((match findRefMatch (cb :: (rb ++ ' ' :: (dC ++ ':' :: (dV ++ topt)))) with
      | none => none
      | some caps =>
        match findBookMetadata ⟨trimL caps.g1⟩ with
        | none => none
        | some bookMeta =>
          some { book := bookMeta.name, chapter := digitsToNat caps.g3,
                 startVerse := digitsToNat caps.g4,
                 endVerse := Option.map digitsToNat caps.g5 }) :
      Option ParsedReference) = _
    rw [← List.cons_append, ← hcb, hfind]
    show ((match findBookMetadata ⟨trimL (b.data.dropWhile isWsCh)⟩ with
      | none => none
      | some bookMeta =>
        some { book := bookMeta.name, chapter := digitsToNat dC,
               startVerse := digitsToNat dV,
               endVerse := Option.map digitsToNat g5 }) :
      Option ParsedReference) = _
    rw [hq]
  unfold parseReferencesFromString
  rw [show (⟨b.data ++ ' ' :: (dC ++ ':' :: (dV ++ topt))⟩ : String).data =
    b.data ++ ' ' :: (dC ++ ':' :: (dV ++ topt)) from rfl]
  rw [splitSeps_single _ (input_no_sep b.data dC dV topt hshape hdCd hdVd (by
    rcases hopt with ⟨ht, _⟩ | ⟨dW, ht, _, hWd, _⟩
    · exact Or.inl ht
    · exact Or.inr ⟨dW, ht, hWd⟩))]
  simp only [List.foldl_cons, List.foldl_nil]
  rw [hseg]
  rfl

/-- C5 (amended): for every input of the form `Book C:V` whose book token
resolves to a known book and contains at least one letter, the parser
yields exactly one reference whose chapter is the numeric value of `C`,
whose start verse is the numeric value of `V`, and whose end verse is
absent; for `Book C:V-W` the single reference additionally carries the
numeric value of `W` as its end verse. -/
theorem C5_parse_single_reference (b : String) (meta : BookMeta) (dC dV dW : List Char)
    (hb : findBookMetadata b = some meta)
    (hletter : ∃ c ∈ b.data, isLetterCh c = true)
    (hdC : dC ≠ []) (hdCd : ∀ x ∈ dC, isDigitCh x = true)
    (hdV : dV ≠ []) (hdVd : ∀ x ∈ dV, isDigitCh x = true)
    (hdW : dW ≠ []) (hdWd : ∀ x ∈ dW, isDigitCh x = true) :
    parseReferencesFromString ⟨b.data ++ ' ' :: (dC ++ ':' :: dV)⟩ =
      [{ book := meta.name, chapter := digitsToNat dC,
         startVerse := digitsToNat dV, endVerse := none }] ∧
    parseReferencesFromString ⟨b.data ++ ' ' :: (dC ++ ':' :: (dV ++ '-' :: dW))⟩ =
      [{ book := meta.name, chapter := digitsToNat dC,
         startVerse := digitsToNat dV, endVerse := some (digitsToNat dW) }] := by
  constructor
  · have h := parse_reference_shaped b meta dC dV [] none hb hletter hdC hdCd hdV hdVd
      (Or.inl ⟨rfl, rfl⟩)
    rw [List.append_nil] at h
    exact h
  · have h := parse_reference_shaped b meta dC dV ('-' :: dW) (some dW) hb hletter
      hdC hdCd hdV hdVd (Or.inr ⟨dW, rfl, hdW, hdWd, rfl⟩)
    exact h

/-- Witness for C5 on `"John 3:16"` and `"John 3:16-18"`. -/
theorem C5_parse_single_reference_witness :
    findBookMetadata "John" = some ⟨"John", 21⟩ ∧
    parseReferencesFromString "John 3:16" =
      [{ book := "John", chapter := 3, startVerse := 16, endVerse := none }] ∧
    parseReferencesFromString "John 3:16-18" =
      [{ book := "John", chapter := 3, startVerse := 16,
         endVerse := some 18 }] := by
  refine ⟨by decide, ?_, ?_⟩
  · exact (C5_parse_single_reference "John" ⟨"John", 21⟩ ['3'] ['1', '6'] ['1', '8']
      (by decide) ⟨'J', by decide, by decide⟩ (by decide) (by decide) (by decide)
      (by decide) (by decide) (by decide)).1
  · exact (C5_parse_single_reference "John" ⟨"John", 21⟩ ['3'] ['1', '6'] ['1', '8']
      (by decide) ⟨'J', by decide, by decide⟩ (by decide) (by decide) (by decide)
      (by decide) (by decide) (by decide)).2

/-- C5 (counterexample): the query `"1"` resolves (by prefix) to
1 Samuel, yet the input `"1 3:16"` — of the form `Book C:V` with a
resolving book — parses to no reference at all: the regex's book class
requires a letter or space run, and a lone digit followed by a single
space cannot satisfy both `[a-zA-Z\s]+` and the mandatory `\s+`. -/
theorem C5_digit_only_book_cex :
    findBookMetadata "1" = some ⟨"1 Samuel", 31⟩ ∧
    parseReferencesFromString "1 3:16" = [] := by
  constructor
  · decide
  · decide

end BibleApp
